import Mathlib

/-!
Reviewer assignment service: the storage layer.

A shallow embedding of `internal/storage/storage.go` and of the reassign
handler of `internal/handlers/handlers.go`.

The PostgreSQL database behind `Store` is an explicit value `DB` holding the
four tables the queries touch, each a list of rows in table order.  Every
method of `Store` becomes a function from the database before the call to the
result of the call paired with the database after it.  A method that returns
an error before `tx.Commit` leaves the database as it was (the deferred
`tx.Rollback`).

Four things the Go code takes from outside are arguments here:
* the keys `random()` gives the rows of an `ORDER BY random()` query
  (`rnd`), one key per row, the rows being returned by ascending key;
* the number `rand.Intn` draws from (`r`, used as `r % n`; `pick id` in the
  cascade, one number per pull request visited);
* the clock (`now`), for `time.Now()` and for the `created_at` column;
* what `array_agg` over the `LEFT JOIN` yields for a pull request without
  reviewer rows (`nullRow`, see `aggReviewers`).
-/

namespace Storage

/-! ## Tables -/

/-- A row of table `users`. -/
structure UserRow where
  user_id : String
  username : String
  team_name : String
  is_active : Bool
deriving DecidableEq, Repr

/-- A row of table `pull_requests`. -/
structure PullRequestRow where
  pull_request_id : String
  pull_request_name : String
  author_id : String
  status : String
  created_at : Nat
  merged_at : Option Nat
deriving DecidableEq, Repr

/-- A row of table `pr_reviewers`. -/
structure ReviewerRow where
  pull_request_id : String
  user_id : String
deriving DecidableEq, Repr

/-- The database: tables `teams`, `users`, `pull_requests`, `pr_reviewers`. -/
structure DB where
  teams : List String
  users : List UserRow
  pull_requests : List PullRequestRow
  pr_reviewers : List ReviewerRow
deriving DecidableEq, Repr

/-- The database with no rows. -/
def DB.empty : DB := { teams := [], users := [], pull_requests := [], pr_reviewers := [] }

/-! ## Values exchanged with the callers (`internal/models`) -/

/-- The Go struct `models.TeamMember`. -/
structure TeamMember where
  UserID : String
  Username : String
  IsActive : Bool
deriving DecidableEq, Repr

/-- The Go struct `models.Team`. -/
structure Team where
  TeamName : String
  Members : List TeamMember
deriving DecidableEq, Repr

/-- The Go struct `models.User`. -/
structure User where
  UserID : String
  Username : String
  TeamName : String
  IsActive : Bool
deriving DecidableEq, Repr

/-- The Go struct `models.PullRequest`. -/
structure PullRequest where
  PullRequestID : String
  PullRequestName : String
  AuthorID : String
  Status : String
  AssignedReviewers : List String
  CreatedAt : Option Nat
  MergedAt : Option Nat
deriving DecidableEq, Repr

/-- The sentinel errors of package `storage`, and `ErrScanNull` for the error
`rows.Scan` returns when an array element is NULL and the target is `[]string`. -/
inductive StoreError where
  | ErrTeamNotFound
  | ErrUserNotFound
  | ErrPRExists
  | ErrPRNotFound
  | ErrPRMerged
  | ErrNotAssigned
  | ErrNoCandidate
  | ErrScanNull
deriving DecidableEq, Repr

deriving instance DecidableEq for Except

/-! ## Queries -/

/-- The query `SELECT ... FROM users WHERE user_id=$1` read with `QueryRow`: the first
matching row. -/
def findUser (db : DB) (userID : String) : Option UserRow :=
  db.users.find? (fun u => decide (u.user_id = userID))

/-- The query `SELECT ... FROM pull_requests WHERE pull_request_id=$1` read with
`QueryRow`: the first matching row. -/
def findPR (db : DB) (prID : String) : Option PullRequestRow :=
  db.pull_requests.find? (fun p => decide (p.pull_request_id = prID))

/-- The user ids of the rows of `pr_reviewers` with `pull_request_id=$1`, in row order. -/
def reviewersIn (rows : List ReviewerRow) (prID : String) : List String :=
  (rows.filter (fun r => decide (r.pull_request_id = prID))).map (fun r => r.user_id)

/-- The query `SELECT user_id FROM pr_reviewers WHERE pull_request_id=$1`. -/
def reviewersOf (db : DB) (prID : String) : List String :=
  reviewersIn db.pr_reviewers prID

/-- The rows of `users` with `team_name=$1 AND is_active=true AND user_id <> $2`. -/
def activeTeamMembers (db : DB) (team excluding : String) : List UserRow :=
  db.users.filter (fun u =>
    decide (u.team_name = team) && u.is_active && decide (u.user_id ≠ excluding))

/-- The clause `ORDER BY random()`: the rows by ascending random key. -/
def orderByRandom (rnd : UserRow → Nat) (rows : List UserRow) : List UserRow :=
  rows.insertionSort (fun a b => rnd a ≤ rnd b)

/-! ## UpsertTeam -/

/-- One `INSERT INTO users ... ON CONFLICT (user_id) DO UPDATE SET ...`. -/
def upsertUser (users : List UserRow) (u : UserRow) : List UserRow :=
  if users.any (fun x => decide (x.user_id = u.user_id)) then
    users.map (fun x => if x.user_id = u.user_id then u else x)
  else users ++ [u]

/-- The statement `INSERT INTO teams(team_name) ... ON CONFLICT (team_name) DO NOTHING`. -/
def insertTeam (teams : List String) (name : String) : List String :=
  if name ∈ teams then teams else teams ++ [name]

/-- The method `Store.UpsertTeam`. -/
def UpsertTeam (db : DB) (t : Team) : Except StoreError Unit × DB :=
  let users := t.Members.foldl
    (fun us m => upsertUser us
      { user_id := m.UserID, username := m.Username, team_name := t.TeamName,
        is_active := m.IsActive })
    db.users
  (.ok (), { db with teams := insertTeam db.teams t.TeamName, users := users })

/-! ## SetUserActive -/

/-- The method `Store.SetUserActive`.  The `UPDATE` affects a row exactly when a row with
the id exists; the `SELECT` that follows then finds one, so its `none` branch is never
taken. -/
def SetUserActive (db : DB) (userID : String) (isActive : Bool) :
    Except StoreError User × DB :=
  if db.users.any (fun u => decide (u.user_id = userID)) then
    let db' : DB := { db with users := db.users.map (fun u =>
      if u.user_id = userID then { u with is_active := isActive } else u) }
    match findUser db' userID with
    | some u => (.ok { UserID := u.user_id, Username := u.username, TeamName := u.team_name,
                       IsActive := u.is_active }, db')
    | none => (.error .ErrUserNotFound, db')
  else (.error .ErrUserNotFound, db)

/-! ## GetPR -/

/-- The value `GetPR` fills from the row of the pull request and from the rows of its
reviewers. -/
def snapshot (p : PullRequestRow) (reviewers : List String) : PullRequest :=
  { PullRequestID := p.pull_request_id, PullRequestName := p.pull_request_name,
    AuthorID := p.author_id, Status := p.status, AssignedReviewers := reviewers,
    CreatedAt := some p.created_at, MergedAt := p.merged_at }

/-- The method `Store.GetPR`. -/
def GetPR (db : DB) (prID : String) : Except StoreError PullRequest :=
  match findPR db prID with
  | none => .error .ErrPRNotFound
  | some p => .ok (snapshot p (reviewersOf db prID))

/-! ## CreatePR -/

/-- The reviewers `CreatePR` selects: `... ORDER BY random() LIMIT 2`. -/
def pickReviewers (db : DB) (rnd : UserRow → Nat) (team author : String) : List String :=
  ((orderByRandom rnd (activeTeamMembers db team author)).take 2).map (fun u => u.user_id)

/-- The statement `INSERT INTO pull_requests(...) VALUES ($1, $2, $3, \x27OPEN\x27)` and the
loop of `INSERT INTO pr_reviewers(pull_request_id, user_id) VALUES($1,$2)` of `CreatePR`;
`now` is the default the database gives `created_at`. -/
def insertPR (db : DB) (now : Nat) (pr : PullRequest) (reviewers : List String) : DB :=
  { db with
    pull_requests := db.pull_requests ++
      [{ pull_request_id := pr.PullRequestID, pull_request_name := pr.PullRequestName,
         author_id := pr.AuthorID, status := "OPEN", created_at := now, merged_at := none }],
    pr_reviewers := db.pr_reviewers ++
      reviewers.map (fun uid => { pull_request_id := pr.PullRequestID, user_id := uid }) }

/-- The method `Store.CreatePR`. -/
def CreatePR (db : DB) (rnd : UserRow → Nat) (now : Nat) (pr : PullRequest) :
    Except StoreError PullRequest × DB :=
  if db.pull_requests.any (fun p => decide (p.pull_request_id = pr.PullRequestID)) then
    (.error .ErrPRExists, db)
  else
    match findUser db pr.AuthorID with
    | none => (.error .ErrUserNotFound, db)
    | some author =>
      let db' := insertPR db now pr (pickReviewers db rnd author.team_name pr.AuthorID)
      (GetPR db' pr.PullRequestID, db')

/-! ## MergePR -/

/-- The statement `UPDATE pull_requests SET status=\x27MERGED\x27, merged_at=$1 WHERE
pull_request_id=$2`. -/
def setMerged (db : DB) (now : Nat) (prID : String) : DB :=
  { db with pull_requests := db.pull_requests.map (fun q =>
      if q.pull_request_id = prID then { q with status := "MERGED", merged_at := some now }
      else q) }

/-- The method `Store.MergePR`; `now` is `time.Now().UTC()`. -/
def MergePR (db : DB) (now : Nat) (prID : String) : Except StoreError PullRequest × DB :=
  match findPR db prID with
  | none => (.error .ErrPRNotFound, db)
  | some p =>
    if p.status = "MERGED" then (GetPR db prID, db)
    else (GetPR (setMerged db now prID) prID, setMerged db now prID)

/-! ## ReassignReviewer -/

/-- The candidate list `ReassignReviewer` builds: the active members of `team` other than
the author, in random order, without `oldUserID` and without the users in `taken` (the
reviewers of the pull request other than `oldUserID`). -/
def reassignCandidates (db : DB) (rnd : UserRow → Nat) (prID team authorID oldUserID : String) :
    List String :=
  let taken := (reviewersOf db prID).filter (fun u => decide (u ≠ oldUserID))
  ((orderByRandom rnd (activeTeamMembers db team authorID)).map (fun u => u.user_id)).filter
    (fun uid => decide (uid ≠ oldUserID) && !decide (uid ∈ taken))

/-- The statements `DELETE FROM pr_reviewers WHERE pull_request_id=$1 AND user_id=$2` and
`INSERT INTO pr_reviewers(pull_request_id, user_id) VALUES($1,$2)` of `ReassignReviewer`. -/
def swapReviewer (db : DB) (prID oldUserID newReviewer : String) : DB :=
  { db with pr_reviewers :=
      db.pr_reviewers.filter (fun x =>
        !(decide (x.pull_request_id = prID) && decide (x.user_id = oldUserID))) ++
      [{ pull_request_id := prID, user_id := newReviewer }] }

/-- The method `Store.ReassignReviewer`; the result is the updated pull request and the
new reviewer. -/
def ReassignReviewer (db : DB) (rnd : UserRow → Nat) (r : Nat) (prID oldUserID : String) :
    Except StoreError (PullRequest × String) × DB :=
  match findPR db prID with
  | none => (.error .ErrPRNotFound, db)
  | some p =>
    if p.status = "MERGED" then (.error .ErrPRMerged, db)
    else if !(db.pr_reviewers.any
        (fun x => decide (x.pull_request_id = prID) && decide (x.user_id = oldUserID))) then
      (.error .ErrNotAssigned, db)
    else
      match findUser db oldUserID with
      | none => (.error .ErrUserNotFound, db)
      | some old =>
        let candidates := reassignCandidates db rnd prID old.team_name p.author_id oldUserID
        if h : 0 < candidates.length then
          let newReviewer := candidates.get ⟨r % candidates.length, Nat.mod_lt r h⟩
          let db' : DB := swapReviewer db prID oldUserID newReviewer
          match GetPR db' prID with
          | .ok pr => (.ok (pr, newReviewer), db')
          | .error e => (.error e, db')
        else (.error .ErrNoCandidate, db)

/-! ## BulkDeactivateUsers -/

/-- The local struct `PR` of `BulkDeactivateUsers`. -/
structure PR where
  ID : String
  Author : String
  Reviewers : List String
deriving DecidableEq, Repr

/-- The value of type `PR` a row of the query for the OPEN pull requests scans to when
the scan succeeds: the id, the author and the reviewers stored for the pull request. -/
def openPR (db : DB) (p : PullRequestRow) : PR :=
  { ID := p.pull_request_id, Author := p.author_id,
    Reviewers := reviewersOf db p.pull_request_id }

/-- The statement `UPDATE users SET is_active = false WHERE team_name=$1 AND user_id = ANY($2)`. -/
def deactivate (users : List UserRow) (teamName : String) (userIDs : List String) :
    List UserRow :=
  users.map (fun u =>
    if u.team_name = teamName ∧ u.user_id ∈ userIDs then { u with is_active := false } else u)

/-- The query `SELECT user_id FROM users WHERE team_name=$1 AND is_active=true`. -/
def activeOfTeam (users : List UserRow) (teamName : String) : List String :=
  (users.filter (fun u => decide (u.team_name = teamName) && u.is_active)).map
    (fun u => u.user_id)

/-- The column `COALESCE(array_agg(r.user_id), \x27{}\x27)` of one group of the
`LEFT JOIN pr_reviewers`.  A pull request without reviewer rows joins to one row whose
`r.user_id` is NULL.  With `nullRow = true` that NULL is an element of the aggregate, as
in PostgreSQL; with `nullRow = false` the aggregate of such a group is the empty array the
`COALESCE` asks for.  The database engine is not part of the repository, so the flag is an
argument and the theorems hold for both values. -/
def aggReviewers (nullRow : Bool) (db : DB) (prID : String) : List (Option String) :=
  match reviewersOf db prID with
  | [] => if nullRow then [none] else []
  | l => l.map some

/-- The call `prRows.Scan(..., &reviewers)` for the array column, the target being
`[]string`: a NULL element is an error. -/
def scanStringArray : List (Option String) → Except StoreError (List String)
  | [] => .ok []
  | none :: _ => .error .ErrScanNull
  | some s :: rest =>
    match scanStringArray rest with
    | .ok l => .ok (s :: l)
    | .error e => .error e

/-- The loop `for prRows.Next()` over the rows of the query for the OPEN pull requests. -/
def scanOpenPRs (nullRow : Bool) (db : DB) : List PullRequestRow → Except StoreError (List PR)
  | [] => .ok []
  | p :: rest =>
    match scanStringArray (aggReviewers nullRow db p.pull_request_id) with
    | .error e => .error e
    | .ok reviewers =>
      match scanOpenPRs nullRow db rest with
      | .error e => .error e
      | .ok prs => .ok ({ ID := p.pull_request_id, Author := p.author_id,
                          Reviewers := reviewers } :: prs)

/-- The slice `final` the loop body computes for one pull request; `r` is the number
`rand.Intn` draws from. -/
def finalReviewers (active : List String) (r : Nat) (pr : PR) : List String :=
  let final := pr.Reviewers.filter (fun x => decide (x ∈ active))
  if final.length = 0 then
    let candidates := active.filter (fun u => decide (u ≠ pr.Author) && !decide (u ∈ pr.Reviewers))
    if h : 0 < candidates.length then
      final ++ [candidates.get ⟨r % candidates.length, Nat.mod_lt r h⟩]
    else final
  else final

/-- The two statements that end the loop body: `DELETE FROM pr_reviewers WHERE
pull_request_id=$1`, then one `INSERT` per element of `final`. -/
def replaceReviewers (rows : List ReviewerRow) (prID : String) (final : List String) :
    List ReviewerRow :=
  rows.filter (fun x => decide (x.pull_request_id ≠ prID)) ++
    final.map (fun uid => { pull_request_id := prID, user_id := uid })

/-- The method `Store.BulkDeactivateUsers`; `pick id` is the number `rand.Intn` draws from
while the loop is at the pull request `id`. -/
def BulkDeactivateUsers (nullRow : Bool) (db : DB) (pick : String → Nat) (teamName : String)
    (userIDs : List String) : Except StoreError Unit × DB :=
  let users := deactivate db.users teamName userIDs
  let active := activeOfTeam users teamName
  match scanOpenPRs nullRow db (db.pull_requests.filter (fun p => decide (p.status = "OPEN"))) with
  | .error e => (.error e, db)
  | .ok prs =>
    let rows := prs.foldl
      (fun rows pr => replaceReviewers rows pr.ID (finalReviewers active (pick pr.ID) pr))
      db.pr_reviewers
    (.ok (), { db with users := users, pr_reviewers := rows })

/-! ## The reassign handler -/

/-- The method `Error()` of the errors. -/
def StoreError.Error : StoreError → String
  | .ErrTeamNotFound => "team not found"
  | .ErrUserNotFound => "user not found"
  | .ErrPRExists => "PR_EXISTS"
  | .ErrPRNotFound => "pr not found"
  | .ErrPRMerged => "PR_MERGED"
  | .ErrNotAssigned => "NOT_ASSIGNED"
  | .ErrNoCandidate => "NO_CANDIDATE"
  | .ErrScanNull => "cannot scan NULL into *string"

/-- What a handler writes: a bare status (`w.WriteHeader`), an error body (`writeError`)
or the body of a successful reassignment (`writeJSON`). -/
inductive Response where
  | header (status : Nat)
  | error (status : Nat) (code : String) (message : String)
  | reassigned (status : Nat) (pr : PullRequest) (replaced_by : String)
deriving DecidableEq, Repr

/-- The function `strings.Contains`. -/
def stringsContains (s substr : String) : Bool :=
  decide (substr.toList <:+: s.toList)

/-- The method `Server.handleReassign`; `body` is the decoded request body, `none` when
`json.NewDecoder(r.Body).Decode` fails. -/
def handleReassign (db : DB) (rnd : UserRow → Nat) (r : Nat) (method : String)
    (body : Option (String × String)) : Response × DB :=
  if method ≠ "POST" then (.header 405, db)
  else
    match body with
    | none => (.error 400 "INVALID" "bad request", db)
    | some (id, oldID) =>
      match ReassignReviewer db rnd r id oldID with
      | (.ok (pr, newID), db') => (.reassigned 200 pr newID, db')
      | (.error e, db') =>
        match e with
        | .ErrPRNotFound => (.error 404 "NOT_FOUND" "PR not found", db')
        | .ErrPRMerged => (.error 409 "PR_MERGED" "cannot reassign on merged PR", db')
        | .ErrNotAssigned =>
          (.error 409 "NOT_ASSIGNED" "reviewer is not assigned to this PR", db')
        | .ErrNoCandidate =>
          (.error 409 "NO_CANDIDATE" "no active replacement candidate in team", db')
        | e =>
          if stringsContains e.Error "user not found" then
            (.error 404 "NOT_FOUND" "user not found", db')
          else (.error 500 "ERROR" e.Error, db')

/-! ## Sets the specification names -/

/-- The candidate pool of a reassignment as §4.3 of the specification words it: the active
members of `team`, without the author and without every user currently assigned to the
pull request. -/
def candidatePool (db : DB) (team authorID prID : String) : List String :=
  (db.users.filter (fun u =>
    decide (u.team_name = team ∧ u.is_active = true ∧ u.user_id ≠ authorID ∧
      u.user_id ∉ reviewersOf db prID))).map (fun u => u.user_id)

/-- The set `E` of §8 of the specification: the active members of `team`, without the
author. -/
def eligibleSet (db : DB) (team authorID : String) : List String :=
  (db.users.filter (fun u =>
    decide (u.team_name = team ∧ u.is_active = true ∧ u.user_id ≠ authorID))).map
    (fun u => u.user_id)

/-- The users whose owning team is `team`: the ids of the rows of `users` with that
`team_name`. -/
def membersIn (users : List UserRow) (team : String) : List String :=
  (users.filter (fun u => decide (u.team_name = team))).map (fun u => u.user_id)

/-- The members of `team` in a database. -/
def teamMembers (db : DB) (team : String) : List String :=
  membersIn db.users team

/-! ## States of the database -/

/-- Modelled from the spec: the table declarations (the migrations) are not among the
sources.  The keys are the ones the queries rely on (`ON CONFLICT (user_id)`, `GROUP BY
pr.pull_request_id` with `pr.author_id` selected) and the ones §3 of the specification
gives: a user id names one user, a pull request id names one pull request, a reviewer
assignment is unique per pair and belongs to a stored pull request. -/
structure Schema (db : DB) : Prop where
  users_key : (db.users.map (fun u => u.user_id)).Nodup
  prs_key : (db.pull_requests.map (fun p => p.pull_request_id)).Nodup
  reviewers_key : db.pr_reviewers.Nodup
  reviewers_pr : ∀ x ∈ db.pr_reviewers, ∃ p ∈ db.pull_requests,
    p.pull_request_id = x.pull_request_id

/-- A call of one of the six mutating methods of `Store`, with its arguments and with
the random numbers and the clock value it consumes. -/
inductive Op where
  | upsertTeam (t : Team)
  | setUserActive (userID : String) (isActive : Bool)
  | createPR (rnd : UserRow → Nat) (now : Nat) (pr : PullRequest)
  | mergePR (now : Nat) (prID : String)
  | reassignReviewer (rnd : UserRow → Nat) (r : Nat) (prID oldUserID : String)
  | bulkDeactivateUsers (nullRow : Bool) (pick : String → Nat) (teamName : String)
      (userIDs : List String)

/-- The database after a call. -/
def Op.run (db : DB) : Op → DB
  | .upsertTeam t => (UpsertTeam db t).2
  | .setUserActive userID isActive => (SetUserActive db userID isActive).2
  | .createPR rnd now pr => (CreatePR db rnd now pr).2
  | .mergePR now prID => (MergePR db now prID).2
  | .reassignReviewer rnd r prID oldUserID => (ReassignReviewer db rnd r prID oldUserID).2
  | .bulkDeactivateUsers nullRow pick teamName userIDs =>
    (BulkDeactivateUsers nullRow db pick teamName userIDs).2

/-- The states reachable from the empty database by calls of the six methods. -/
inductive Reachable : DB → Prop where
  | empty : Reachable DB.empty
  | step {db : DB} (h : Reachable db) (op : Op) : Reachable (op.run db)

/-! ## Concrete databases -/

/-- Team `T` with `u1`, `u2`, `u3` active and `u4` inactive. -/
def teamT : Team :=
  { TeamName := "T",
    Members := [⟨"u1", "alice", true⟩, ⟨"u2", "bob", true⟩, ⟨"u3", "charlie", true⟩,
                ⟨"u4", "vasya", false⟩] }

/-- The database after `teamT` is upserted into the empty database. -/
def dbT : DB := (UpsertTeam DB.empty teamT).2

/-- The request that creates `p1`, authored by `u1`. -/
def reqP1 : PullRequest :=
  { PullRequestID := "p1", PullRequestName := "New login", AuthorID := "u1", Status := "",
    AssignedReviewers := [], CreatedAt := none, MergedAt := none }

/-- The database after `p1` is created in `dbT`. -/
def dbP1 : DB := (CreatePR dbT (fun _ => 0) 1 reqP1).2

/-- Team `A` with `u1`, `u2`, `u3`, `u4`, all active. -/
def teamA : Team :=
  { TeamName := "A",
    Members := [⟨"u1", "alice", true⟩, ⟨"u2", "bob", true⟩, ⟨"u3", "charlie", true⟩,
                ⟨"u4", "vasya", true⟩] }

/-- The database after `teamA` is upserted into the empty database and `p1` is created:
its reviewers are `u2` and `u3`. -/
def dbA1 : DB := (CreatePR (UpsertTeam DB.empty teamA).2 (fun _ => 0) 1 reqP1).2

/-- Team `S` with `s1`, `s2`, `s3`, all active. -/
def teamS : Team :=
  { TeamName := "S",
    Members := [⟨"s1", "dana", true⟩, ⟨"s2", "emil", true⟩, ⟨"s3", "fred", true⟩] }

/-- The request that creates `q1`, authored by `s1`. -/
def reqQ1 : PullRequest :=
  { PullRequestID := "q1", PullRequestName := "Search", AuthorID := "s1", Status := "",
    AssignedReviewers := [], CreatedAt := none, MergedAt := none }

/-- The database with the teams `T` and `S` and the pull requests `p1` (team `T`, reviewers
`u2` and `u3`) and `q1` (team `S`, reviewers `s2` and `s3`). -/
def dbTS : DB := (CreatePR (UpsertTeam dbP1 teamS).2 (fun _ => 0) 2 reqQ1).2

/-- An upsert of team `S` that lists `u1`, a member of team `T` in `dbT`. -/
def teamMove : Team :=
  { TeamName := "S", Members := [⟨"u1", "alice", true⟩] }

/-- A request for a pull request `p2` whose author `u9` is not a user. -/
def reqP2 : PullRequest :=
  { PullRequestID := "p2", PullRequestName := "Logout", AuthorID := "u9", Status := "",
    AssignedReviewers := [], CreatedAt := none, MergedAt := none }

/-- The database after `u2` and `u3` are deactivated in `dbP1`: the OPEN pull request `p1`
is left without reviewers. -/
def dbBare : DB := (BulkDeactivateUsers true dbP1 (fun _ => 0) "T" ["u2", "u3"]).2

/-- The database after `p1` is merged in `dbP1`. -/
def dbMerged : DB := (MergePR dbP1 5 "p1").2

/-! ## Lookups -/

theorem findPR_some {db : DB} {prID : String} {p : PullRequestRow}
    (h : findPR db prID = some p) : p ∈ db.pull_requests ∧ p.pull_request_id = prID := by
  unfold findPR at h
  exact ⟨List.mem_of_find?_eq_some h, by simpa using List.find?_some h⟩

theorem findUser_some {db : DB} {userID : String} {u : UserRow}
    (h : findUser db userID = some u) : u ∈ db.users ∧ u.user_id = userID := by
  unfold findUser at h
  exact ⟨List.mem_of_find?_eq_some h, by simpa using List.find?_some h⟩

theorem mem_reviewersOf {db : DB} {prID u : String} :
    u ∈ reviewersOf db prID ↔ ⟨prID, u⟩ ∈ db.pr_reviewers := by
  unfold reviewersOf reviewersIn
  simp only [List.mem_map, List.mem_filter, decide_eq_true_eq]
  constructor
  · rintro ⟨⟨a, b⟩, ⟨hx, h1⟩, h2⟩
    simp only at h1 h2
    subst h1 h2
    exact hx
  · intro h
    exact ⟨⟨prID, u⟩, ⟨h, rfl⟩, rfl⟩

/-! ## Reassignment on a merged pull request -/

/-- C4: on a pull request whose stored status is MERGED, `ReassignReviewer` fails with
`ErrPRMerged` whatever the reviewer argument and the rest of the state are, and the
reassign handler answers 409 with code `PR_MERGED`; the database is unchanged. -/
theorem reassign_merged_fails (db : DB) (rnd : UserRow → Nat) (r : Nat)
    (prID oldUserID : String) (p : PullRequestRow)
    (hp : findPR db prID = some p) (hm : p.status = "MERGED") :
    ReassignReviewer db rnd r prID oldUserID = (.error .ErrPRMerged, db) ∧
    handleReassign db rnd r "POST" (some (prID, oldUserID)) =
      (.error 409 "PR_MERGED" "cannot reassign on merged PR", db) := by
  have h : ReassignReviewer db rnd r prID oldUserID = (.error .ErrPRMerged, db) := by
    simp [ReassignReviewer, hp, hm]
  refine ⟨h, ?_⟩
  simp [handleReassign, h]

theorem reassign_merged_fails_witness :
    ReassignReviewer dbMerged (fun _ => 0) 0 "p1" "u9" = (.error .ErrPRMerged, dbMerged) ∧
    handleReassign dbMerged (fun _ => 0) 0 "POST" (some ("p1", "u9")) =
      (.error 409 "PR_MERGED" "cannot reassign on merged PR", dbMerged) :=
  reassign_merged_fails dbMerged (fun _ => 0) 0 "p1" "u9"
    ⟨"p1", "New login", "u1", "MERGED", 1, some 5⟩ (by decide) (by decide)

/-! ## Merge -/

/-- The row `MergePR` writes for a pull request that is not yet merged. -/
theorem findPR_setMerged (db : DB) (now : Nat) (prID : String) :
    findPR (setMerged db now prID) prID =
      (findPR db prID).map (fun q => { q with status := "MERGED", merged_at := some now }) := by
  unfold findPR setMerged
  simp only
  induction db.pull_requests with
  | nil => rfl
  | cons a l ih =>
    by_cases h : a.pull_request_id = prID
    · simp [List.find?_cons, h]
    · simp only [List.map_cons, List.find?_cons, h, if_false, decide_False]
      exact ih

theorem reviewersOf_congr {db db' : DB} (h : db'.pr_reviewers = db.pr_reviewers)
    (prID : String) : reviewersOf db' prID = reviewersOf db prID := by
  unfold reviewersOf reviewersIn
  rw [h]

/-- C7: merging is idempotent. For a stored pull request, two calls of `MergePR` in a row
both succeed, the second returns the snapshot the first returned (status MERGED, same
merge time, same reviewers, same other fields) and leaves the database as the first call
left it, whatever the clock shows at the second call. -/
theorem merge_idempotent (db : DB) (now1 now2 : Nat) (prID : String) (p : PullRequestRow)
    (hp : findPR db prID = some p) :
    ∃ snap : PullRequest,
      (MergePR db now1 prID).1 = .ok snap ∧
      snap.Status = "MERGED" ∧
      MergePR (MergePR db now1 prID).2 now2 prID = (.ok snap, (MergePR db now1 prID).2) := by
  by_cases hm : p.status = "MERGED"
  · have h1 : MergePR db now1 prID = (GetPR db prID, db) := by
      simp [MergePR, hp, hm]
    have h2 : MergePR db now2 prID = (GetPR db prID, db) := by
      simp [MergePR, hp, hm]
    refine ⟨snapshot p (reviewersOf db prID), ?_, ?_, ?_⟩
    · rw [h1]
      simp only [GetPR, hp]
    · exact hm
    · rw [h1]
      simp only [h2, GetPR, hp]
  · have hf := findPR_setMerged db now1 prID
    rw [hp] at hf
    have h1 : MergePR db now1 prID =
        (GetPR (setMerged db now1 prID) prID, setMerged db now1 prID) := by
      simp only [MergePR, hp, hm, if_false]
    refine ⟨{ PullRequestID := p.pull_request_id, PullRequestName := p.pull_request_name,
              AuthorID := p.author_id, Status := "MERGED",
              AssignedReviewers := reviewersOf db prID,
              CreatedAt := some p.created_at, MergedAt := some now1 }, ?_, ?_, ?_⟩
    · rw [h1]
      simp only [GetPR, hf, Option.map_some']
      rfl
    · rfl
    · rw [h1]
      simp only [MergePR, hf, Option.map_some', if_true, GetPR]
      rfl

theorem merge_idempotent_witness :
    findPR dbP1 "p1" = some ⟨"p1", "New login", "u1", "OPEN", 1, none⟩ ∧
    ∃ snap : PullRequest,
      (MergePR dbP1 5 "p1").1 = .ok snap ∧
      snap.Status = "MERGED" ∧
      MergePR (MergePR dbP1 5 "p1").2 9 "p1" = (.ok snap, (MergePR dbP1 5 "p1").2) :=
  ⟨by decide, merge_idempotent dbP1 5 9 "p1" _ (by decide : findPR dbP1 "p1" = some
    ⟨"p1", "New login", "u1", "OPEN", 1, none⟩)⟩

/-- C8: merging an OPEN pull request succeeds and writes only the status (MERGED) and the
merge time (the clock value) of that pull request: the teams, the users and all reviewer
assignments are the same after the call, and every pull request row keeps its id, name,
author and creation time, the rows of other pull requests keeping status and merge time
too.  The snapshot returned carries the reviewers stored before the call. -/
theorem merge_open_frame (db : DB) (now : Nat) (prID : String) (p : PullRequestRow)
    (hp : findPR db prID = some p) (ho : p.status = "OPEN") :
    (MergePR db now prID).1 = .ok
      { PullRequestID := p.pull_request_id, PullRequestName := p.pull_request_name,
        AuthorID := p.author_id, Status := "MERGED",
        AssignedReviewers := reviewersOf db prID,
        CreatedAt := some p.created_at, MergedAt := some now } ∧
    (MergePR db now prID).2.teams = db.teams ∧
    (MergePR db now prID).2.users = db.users ∧
    (MergePR db now prID).2.pr_reviewers = db.pr_reviewers ∧
    List.Forall₂
      (fun q q' : PullRequestRow =>
        q'.pull_request_id = q.pull_request_id ∧
        q'.pull_request_name = q.pull_request_name ∧
        q'.author_id = q.author_id ∧
        q'.created_at = q.created_at ∧
        (if q.pull_request_id = prID then q'.status = "MERGED" ∧ q'.merged_at = some now
         else q'.status = q.status ∧ q'.merged_at = q.merged_at))
      db.pull_requests (MergePR db now prID).2.pull_requests := by
  have hm : ¬ p.status = "MERGED" := by
    rw [ho]
    decide
  have hf := findPR_setMerged db now prID
  rw [hp] at hf
  have h1 : MergePR db now prID = (GetPR (setMerged db now prID) prID, setMerged db now prID) := by
    simp only [MergePR, hp, hm, if_false]
  rw [h1]
  refine ⟨?_, rfl, rfl, rfl, ?_⟩
  · simp only [GetPR, hf, Option.map_some']
    rfl
  · show List.Forall₂ _ db.pull_requests (db.pull_requests.map _)
    rw [List.forall₂_map_right_iff]
    apply List.forall₂_same.mpr
    intro q _
    by_cases hq : q.pull_request_id = prID <;> simp [hq]

theorem merge_open_frame_witness :
    (MergePR dbP1 5 "p1").1 = .ok
      { PullRequestID := "p1", PullRequestName := "New login",
        AuthorID := "u1", Status := "MERGED",
        AssignedReviewers := reviewersOf dbP1 "p1",
        CreatedAt := some 1, MergedAt := some 5 } ∧
    (MergePR dbP1 5 "p1").2.pr_reviewers = dbP1.pr_reviewers :=
  have h := merge_open_frame dbP1 5 "p1" ⟨"p1", "New login", "u1", "OPEN", 1, none⟩
    (by decide) (by decide)
  ⟨h.1, h.2.2.2.1⟩

/-! ## Reassignment on an open pull request -/

theorem mem_orderByRandom {rnd : UserRow → Nat} {rows : List UserRow} {u : UserRow} :
    u ∈ orderByRandom rnd rows ↔ u ∈ rows :=
  (List.perm_insertionSort _ rows).mem_iff

/-- The list the code builds and the pool of the specification have the same members. -/
theorem mem_reassignCandidates {db : DB} (rnd : UserRow → Nat)
    {prID team authorID oldUserID : String} (hold : oldUserID ∈ reviewersOf db prID)
    (uid : String) :
    uid ∈ reassignCandidates db rnd prID team authorID oldUserID ↔
      uid ∈ candidatePool db team authorID prID := by
  unfold reassignCandidates candidatePool activeTeamMembers
  simp only [List.mem_filter, List.mem_map, mem_orderByRandom, Bool.and_eq_true,
    decide_eq_true_eq, Bool.not_eq_true', decide_eq_false_iff_not, ne_eq, not_and, not_not]
  constructor
  · rintro ⟨⟨u, ⟨hu, ⟨ht, ha⟩, hne⟩, rfl⟩, hno, htk⟩
    refine ⟨u, ⟨hu, ht, ha, hne, ?_⟩, rfl⟩
    intro hmem
    exact hno (htk hmem)
  · rintro ⟨u, ⟨hu, ht, ha, hne, hnr⟩, rfl⟩
    refine ⟨⟨u, ⟨hu, ⟨ht, ha⟩, hne⟩, rfl⟩, ?_, ?_⟩
    · intro h
      exact hnr (h ▸ hold)
    · intro hmem
      exact absurd hmem hnr

theorem any_assigned {db : DB} {prID oldUserID : String} :
    db.pr_reviewers.any
        (fun x => decide (x.pull_request_id = prID) && decide (x.user_id = oldUserID)) = true ↔
      oldUserID ∈ reviewersOf db prID := by
  rw [mem_reviewersOf]
  simp only [List.any_eq_true, Bool.and_eq_true, decide_eq_true_eq]
  constructor
  · rintro ⟨⟨a, b⟩, hx, h1, h2⟩
    simp only at h1 h2
    subst h1 h2
    exact hx
  · intro h
    exact ⟨_, h, rfl, rfl⟩

/-- The reviewers of a pull request after one assignment is swapped. -/
theorem reviewersOf_swap (db : DB) (prID oldUserID new : String) :
    reviewersOf (swapReviewer db prID oldUserID new) prID =
      (reviewersOf db prID).filter (fun u => decide (u ≠ oldUserID)) ++ [new] := by
  unfold reviewersOf reviewersIn swapReviewer
  simp only [List.filter_append, List.map_append, List.filter_filter, List.filter_map]
  congr 1
  · congr 1
    apply List.filter_congr
    intro x _
    by_cases h1 : x.pull_request_id = prID <;> by_cases h2 : x.user_id = oldUserID <;>
      simp [h1, h2]
  · simp

/-- A reassignment on an OPEN pull request with a non-empty candidate pool. -/
theorem reassign_open_swap (db : DB) (rnd : UserRow → Nat) (r : Nat)
    (prID oldUserID : String) (p : PullRequestRow) (old : UserRow)
    (hp : findPR db prID = some p) (ho : p.status = "OPEN")
    (hassigned : oldUserID ∈ reviewersOf db prID)
    (hold : findUser db oldUserID = some old)
    (hpool : candidatePool db old.team_name p.author_id prID ≠ []) :
    ∃ (pr : PullRequest) (new : String) (db' : DB),
      ReassignReviewer db rnd r prID oldUserID = (.ok (pr, new), db') ∧
      new ∈ candidatePool db old.team_name p.author_id prID ∧
      new ≠ oldUserID ∧
      reviewersOf db' prID =
        (reviewersOf db prID).filter (fun u => decide (u ≠ oldUserID)) ++ [new] ∧
      pr.AssignedReviewers = reviewersOf db' prID := by
  have hm : ¬ p.status = "MERGED" := by
    rw [ho]
    decide
  obtain ⟨c, hc⟩ := List.exists_mem_of_ne_nil _ hpool
  have hc' := (mem_reassignCandidates rnd hassigned c).mpr hc
  have hlen : 0 < (reassignCandidates db rnd prID old.team_name p.author_id oldUserID).length :=
    List.length_pos_of_mem hc'
  obtain ⟨new, hdef⟩ : ∃ new, new =
      (reassignCandidates db rnd prID old.team_name p.author_id oldUserID).get
        ⟨r % (reassignCandidates db rnd prID old.team_name p.author_id oldUserID).length,
          Nat.mod_lt r hlen⟩ := ⟨_, rfl⟩
  have hnew : new ∈ candidatePool db old.team_name p.author_id prID := by
    rw [hdef]
    exact (mem_reassignCandidates rnd hassigned _).mp (List.get_mem _ _ _)
  have hfind : findPR (swapReviewer db prID oldUserID new) prID = some p := hp
  refine ⟨snapshot p (reviewersOf (swapReviewer db prID oldUserID new) prID), new,
    swapReviewer db prID oldUserID new, ?_, hnew, ?_, reviewersOf_swap db prID oldUserID new, rfl⟩
  · simp only [ReassignReviewer, hp, hm, if_false, any_assigned.mpr hassigned, Bool.not_true,
      hold, hlen, dite_true, ← hdef, GetPR, hfind]
    rfl
  · intro h
    rw [h] at hnew
    unfold candidatePool at hnew
    simp only [List.mem_map, List.mem_filter, decide_eq_true_eq] at hnew
    obtain ⟨u, ⟨_, _, _, _, hnr⟩, hu⟩ := hnew
    exact hnr (hu ▸ hassigned)

/-- C5: on an OPEN pull request, replacing an assigned reviewer `oldUserID` whose team
still has a candidate (an active member that is neither the author nor assigned to the
pull request) succeeds; the new reviewer is taken from that pool, so it differs from the
one removed, and the reviewers of the pull request afterwards are the previous ones
without `oldUserID`, followed by the new reviewer. -/
theorem reassign_open_replaces (db : DB) (rnd : UserRow → Nat) (r : Nat)
    (prID oldUserID : String) (p : PullRequestRow) (old : UserRow)
    (hp : findPR db prID = some p) (ho : p.status = "OPEN")
    (hassigned : oldUserID ∈ reviewersOf db prID)
    (hold : findUser db oldUserID = some old)
    (hpool : candidatePool db old.team_name p.author_id prID ≠ []) :
    ∃ (pr : PullRequest) (new : String) (db' : DB),
      ReassignReviewer db rnd r prID oldUserID = (.ok (pr, new), db') ∧
      new ∈ candidatePool db old.team_name p.author_id prID ∧
      new ≠ oldUserID ∧
      reviewersOf db' prID =
        (reviewersOf db prID).filter (fun u => decide (u ≠ oldUserID)) ++ [new] ∧
      pr.AssignedReviewers = reviewersOf db' prID :=
  reassign_open_swap db rnd r prID oldUserID p old hp ho hassigned hold hpool

theorem reassign_open_replaces_witness :
    findPR dbA1 "p1" = some ⟨"p1", "New login", "u1", "OPEN", 1, none⟩ ∧
    "u2" ∈ reviewersOf dbA1 "p1" ∧
    findUser dbA1 "u2" = some ⟨"u2", "bob", "A", true⟩ ∧
    candidatePool dbA1 "A" "u1" "p1" ≠ [] ∧
    ∃ (pr : PullRequest) (new : String) (db' : DB),
      ReassignReviewer dbA1 (fun _ => 0) 0 "p1" "u2" = (.ok (pr, new), db') ∧
      new ∈ candidatePool dbA1 "A" "u1" "p1" ∧
      new ≠ "u2" ∧
      reviewersOf db' "p1" =
        (reviewersOf dbA1 "p1").filter (fun u => decide (u ≠ "u2")) ++ [new] ∧
      pr.AssignedReviewers = reviewersOf db' "p1" :=
  ⟨by decide, by decide, by decide, by decide,
    reassign_open_replaces dbA1 (fun _ => 0) 0 "p1" "u2"
      ⟨"p1", "New login", "u1", "OPEN", 1, none⟩ ⟨"u2", "bob", "A", true⟩
      (by decide) (by decide) (by decide) (by decide) (by decide)⟩

/-- C6: on an OPEN pull request and for an assigned reviewer `oldUserID` that is a user,
`ReassignReviewer` fails with `ErrNoCandidate` exactly when the candidate pool (the active
members of the team of `oldUserID`, without the author and without the users assigned to
the pull request) is empty; the database is then unchanged. -/
theorem reassign_no_candidate_iff (db : DB) (rnd : UserRow → Nat) (r : Nat)
    (prID oldUserID : String) (p : PullRequestRow) (old : UserRow)
    (hp : findPR db prID = some p) (ho : p.status = "OPEN")
    (hassigned : oldUserID ∈ reviewersOf db prID)
    (hold : findUser db oldUserID = some old) :
    ((ReassignReviewer db rnd r prID oldUserID).1 = .error .ErrNoCandidate ↔
      candidatePool db old.team_name p.author_id prID = []) ∧
    (candidatePool db old.team_name p.author_id prID = [] →
      ReassignReviewer db rnd r prID oldUserID = (.error .ErrNoCandidate, db)) := by
  have hm : ¬ p.status = "MERGED" := by
    rw [ho]
    decide
  have hempty : candidatePool db old.team_name p.author_id prID = [] →
      ReassignReviewer db rnd r prID oldUserID = (.error .ErrNoCandidate, db) := by
    intro hnil
    have hc : reassignCandidates db rnd prID old.team_name p.author_id oldUserID = [] := by
      apply List.eq_nil_iff_forall_not_mem.mpr
      intro c hc
      have := (mem_reassignCandidates rnd hassigned c).mp hc
      rw [hnil] at this
      exact absurd this (List.not_mem_nil c)
    simp only [ReassignReviewer, hp, hm, if_false, any_assigned.mpr hassigned, Bool.not_true,
      hold, hc, List.length_nil, lt_self_iff_false, dite_false]
    rfl
  refine ⟨⟨?_, fun h => by rw [hempty h]⟩, hempty⟩
  intro herr
  by_contra hne
  obtain ⟨pr, new, db', hok, _⟩ :=
    reassign_open_swap db rnd r prID oldUserID p old hp ho hassigned hold hne
  rw [hok] at herr
  cases herr

theorem reassign_no_candidate_iff_witness :
    findPR dbP1 "p1" = some ⟨"p1", "New login", "u1", "OPEN", 1, none⟩ ∧
    reviewersOf dbP1 "p1" = ["u2", "u3"] ∧
    findUser dbP1 "u2" = some ⟨"u2", "bob", "T", true⟩ ∧
    candidatePool dbP1 "T" "u1" "p1" = [] ∧
    ReassignReviewer dbP1 (fun _ => 0) 0 "p1" "u2" = (.error .ErrNoCandidate, dbP1) :=
  ⟨by decide, by decide, by decide, by decide,
    (reassign_no_candidate_iff dbP1 (fun _ => 0) 0 "p1" "u2"
      ⟨"p1", "New login", "u1", "OPEN", 1, none⟩ ⟨"u2", "bob", "T", true⟩
      (by decide) (by decide) (by decide) (by decide)).2 (by decide)⟩

/-! ## Creation -/

theorem find?_of_mem_nodup {l : List UserRow} (hk : (l.map (fun u => u.user_id)).Nodup)
    {u : UserRow} (hu : u ∈ l) :
    l.find? (fun x => decide (x.user_id = u.user_id)) = some u := by
  induction l with
  | nil => cases hu
  | cons a l ih =>
    simp only [List.map_cons, List.nodup_cons, List.mem_map, not_exists, not_and] at hk
    rcases List.mem_cons.mp hu with h | h
    · subst h
      simp
    · have hne : ¬ a.user_id = u.user_id := fun e => hk.1 u h e.symm
      simp only [List.find?_cons, hne, decide_False]
      exact ih hk.2 h

theorem findUser_of_mem {db : DB} (hk : (db.users.map (fun u => u.user_id)).Nodup)
    {u : UserRow} (hu : u ∈ db.users) : findUser db u.user_id = some u :=
  find?_of_mem_nodup hk hu

theorem reviewersOf_eq_nil_of_new {db : DB} (hS : Schema db) {prID : String}
    (hnew : ∀ p ∈ db.pull_requests, p.pull_request_id ≠ prID) : reviewersOf db prID = [] := by
  apply List.eq_nil_iff_forall_not_mem.mpr
  intro u hu
  obtain ⟨p, hp, he⟩ := hS.reviewers_pr _ (mem_reviewersOf.mp hu)
  exact hnew p hp he

theorem reviewersOf_insertPR (db : DB) (now : Nat) (pr : PullRequest) (reviewers : List String) :
    reviewersOf (insertPR db now pr reviewers) pr.PullRequestID =
      reviewersOf db pr.PullRequestID ++ reviewers := by
  unfold reviewersOf reviewersIn insertPR
  simp only [List.filter_append, List.map_append]
  congr 1
  induction reviewers with
  | nil => rfl
  | cons a l ih => simp [List.filter_cons, ih]

theorem findPR_insertPR (db : DB) (now : Nat) (pr : PullRequest) (reviewers : List String)
    (hnew : ∀ p ∈ db.pull_requests, p.pull_request_id ≠ pr.PullRequestID) :
    findPR (insertPR db now pr reviewers) pr.PullRequestID =
      some ⟨pr.PullRequestID, pr.PullRequestName, pr.AuthorID, "OPEN", now, none⟩ := by
  unfold findPR insertPR
  simp only [List.find?_append]
  have : db.pull_requests.find? (fun p => decide (p.pull_request_id = pr.PullRequestID)) = none := by
    apply List.find?_eq_none.mpr
    intro x hx
    simpa using hnew x hx
  rw [this]
  simp

theorem nodup_activeTeamMembers {db : DB} (hk : (db.users.map (fun u => u.user_id)).Nodup)
    (team excluding : String) :
    ((activeTeamMembers db team excluding).map (fun u => u.user_id)).Nodup :=
  hk.sublist ((List.filter_sublist _).map _)

theorem nodup_pickReviewers {db : DB} (hk : (db.users.map (fun u => u.user_id)).Nodup)
    (rnd : UserRow → Nat) (team author : String) : (pickReviewers db rnd team author).Nodup := by
  unfold pickReviewers
  have hperm : List.Perm
      ((orderByRandom rnd (activeTeamMembers db team author)).map (fun u => u.user_id))
      ((activeTeamMembers db team author).map (fun u => u.user_id)) :=
    (List.perm_insertionSort _ _).map _
  have hnd := hperm.nodup_iff.mpr (nodup_activeTeamMembers hk team author)
  exact hnd.sublist ((List.take_sublist 2 _).map _)

theorem mem_pickReviewers {db : DB} {rnd : UserRow → Nat} {team author u : String}
    (h : u ∈ pickReviewers db rnd team author) :
    u ≠ author ∧ ∃ row ∈ db.users, row.user_id = u ∧ row.team_name = team ∧
      row.is_active = true := by
  unfold pickReviewers at h
  obtain ⟨row, hrow, rfl⟩ := List.mem_map.mp h
  have hmem := mem_orderByRandom.mp (List.mem_of_mem_take hrow)
  unfold activeTeamMembers at hmem
  simp only [List.mem_filter, Bool.and_eq_true, decide_eq_true_eq] at hmem
  exact ⟨hmem.2.2, row, hmem.1, rfl, hmem.2.1.1, hmem.2.1.2⟩

theorem length_pickReviewers (db : DB) (rnd : UserRow → Nat) (team author : String) :
    (pickReviewers db rnd team author).length =
      min 2 (db.users.filter (fun u =>
        decide (u.team_name = team ∧ u.is_active = true ∧ u.user_id ≠ author))).length := by
  unfold pickReviewers orderByRandom activeTeamMembers
  rw [List.length_map, List.length_take, List.length_insertionSort]
  congr 2
  apply List.filter_congr
  intro x _
  by_cases h1 : x.team_name = team <;> by_cases h2 : x.is_active = true <;>
    by_cases h3 : x.user_id = author <;> simp [h1, h2, h3]

/-- C1: in a database that satisfies the schema, `CreatePR` with an id that is not stored
and an author that is a user succeeds and stores the pull request as OPEN. The reviewers
it returns are the ones it stored; they are pairwise distinct, each is an active member of
the team of the author and is not the author, and their number is `min 2 n`, where `n`
counts the active members of that team other than the author (so 0 and 1 candidates give
0 and 1 reviewers, without an error). -/
theorem createPR_assigns_reviewers (db : DB) (hS : Schema db) (rnd : UserRow → Nat) (now : Nat)
    (pr : PullRequest) (author : UserRow)
    (hnew : ∀ p ∈ db.pull_requests, p.pull_request_id ≠ pr.PullRequestID)
    (hauthor : author ∈ db.users) (hid : author.user_id = pr.AuthorID) :
    ∃ (created : PullRequest) (db' : DB),
      CreatePR db rnd now pr = (.ok created, db') ∧
      findPR db' pr.PullRequestID =
        some ⟨pr.PullRequestID, pr.PullRequestName, pr.AuthorID, "OPEN", now, none⟩ ∧
      created.PullRequestID = pr.PullRequestID ∧
      created.AuthorID = pr.AuthorID ∧
      created.Status = "OPEN" ∧
      created.AssignedReviewers = reviewersOf db' pr.PullRequestID ∧
      created.AssignedReviewers.Nodup ∧
      (∀ u ∈ created.AssignedReviewers, u ≠ pr.AuthorID ∧
        ∃ row ∈ db.users, row.user_id = u ∧ row.team_name = author.team_name ∧
          row.is_active = true) ∧
      created.AssignedReviewers.length =
        min 2 (db.users.filter (fun u => decide (u.team_name = author.team_name ∧
          u.is_active = true ∧ u.user_id ≠ pr.AuthorID))).length := by
  have hany : db.pull_requests.any (fun p => decide (p.pull_request_id = pr.PullRequestID)) =
      false := by
    rw [List.any_eq_false]
    intro x hx
    simpa using hnew x hx
  have hfu : findUser db pr.AuthorID = some author := hid ▸ findUser_of_mem hS.users_key hauthor
  have hrev : reviewersOf (insertPR db now pr (pickReviewers db rnd author.team_name pr.AuthorID))
      pr.PullRequestID = pickReviewers db rnd author.team_name pr.AuthorID := by
    rw [reviewersOf_insertPR, reviewersOf_eq_nil_of_new hS hnew, List.nil_append]
  have hfind := findPR_insertPR db now pr (pickReviewers db rnd author.team_name pr.AuthorID) hnew
  refine ⟨snapshot ⟨pr.PullRequestID, pr.PullRequestName, pr.AuthorID, "OPEN", now, none⟩
      (pickReviewers db rnd author.team_name pr.AuthorID),
    insertPR db now pr (pickReviewers db rnd author.team_name pr.AuthorID),
    ?_, hfind, rfl, rfl, rfl, hrev.symm, nodup_pickReviewers hS.users_key rnd _ _,
    fun u hu => mem_pickReviewers hu, length_pickReviewers db rnd _ _⟩
  simp only [CreatePR, hany, hfu, GetPR, hfind, hrev]
  rfl

theorem createPR_assigns_reviewers_witness :
    Schema dbT ∧
    (∀ p ∈ dbT.pull_requests, p.pull_request_id ≠ reqP1.PullRequestID) ∧
    (⟨"u1", "alice", "T", true⟩ : UserRow) ∈ dbT.users ∧
    ∃ (created : PullRequest) (db' : DB),
      CreatePR dbT (fun _ => 0) 1 reqP1 = (.ok created, db') ∧
      findPR db' "p1" = some ⟨"p1", "New login", "u1", "OPEN", 1, none⟩ ∧
      created.PullRequestID = "p1" ∧
      created.AuthorID = "u1" ∧
      created.Status = "OPEN" ∧
      created.AssignedReviewers = reviewersOf db' "p1" ∧
      created.AssignedReviewers.Nodup ∧
      (∀ u ∈ created.AssignedReviewers, u ≠ "u1" ∧
        ∃ row ∈ dbT.users, row.user_id = u ∧ row.team_name = "T" ∧ row.is_active = true) ∧
      created.AssignedReviewers.length =
        min 2 (dbT.users.filter (fun u => decide (u.team_name = "T" ∧
          u.is_active = true ∧ u.user_id ≠ "u1"))).length :=
  ⟨⟨by decide, by decide, by decide, by decide⟩, by decide, by decide,
    createPR_assigns_reviewers dbT ⟨by decide, by decide, by decide, by decide⟩ (fun _ => 0) 1
      reqP1 ⟨"u1", "alice", "T", true⟩ (by decide) (by decide) rfl⟩

/-! ## The cascade of a bulk deactivation -/

theorem scanStringArray_some (l : List String) : scanStringArray (l.map some) = .ok l := by
  induction l with
  | nil => rfl
  | cons a l ih => simp [scanStringArray, ih]

/-- A scan that succeeds reads, for every pull request, the reviewers stored for it. -/
theorem scanStringArray_agg {nullRow : Bool} {db : DB} {prID : String} {l : List String}
    (h : scanStringArray (aggReviewers nullRow db prID) = .ok l) : l = reviewersOf db prID := by
  unfold aggReviewers at h
  cases hr : reviewersOf db prID with
  | nil =>
    rw [hr] at h
    cases nullRow
    · simp only [Bool.false_eq_true, if_false, scanStringArray] at h
      cases h
      rfl
    · simp only [if_true, scanStringArray] at h
      cases h
  | cons a t =>
    rw [hr] at h
    have := scanStringArray_some (a :: t)
    simp only at h
    rw [this] at h
    cases h
    rfl

theorem scanOpenPRs_ok {nullRow : Bool} {db : DB} {rows : List PullRequestRow} {prs : List PR}
    (h : scanOpenPRs nullRow db rows = .ok prs) :
    prs = rows.map (openPR db) := by
  induction rows generalizing prs with
  | nil =>
    simp only [scanOpenPRs] at h
    cases h
    rfl
  | cons p rest ih =>
    simp only [scanOpenPRs] at h
    cases h1 : scanStringArray (aggReviewers nullRow db p.pull_request_id) with
    | error e =>
      rw [h1] at h
      cases h
    | ok l =>
      rw [h1] at h
      cases h2 : scanOpenPRs nullRow db rest with
      | error e =>
        rw [h2] at h
        cases h
      | ok prs' =>
        rw [h2] at h
        simp only at h
        cases h
        rw [List.map_cons, ← ih h2, scanStringArray_agg h1]
        rfl

theorem mem_reviewersIn {rows : List ReviewerRow} {prID u : String} :
    u ∈ reviewersIn rows prID ↔ ⟨prID, u⟩ ∈ rows := by
  unfold reviewersIn
  simp only [List.mem_map, List.mem_filter, decide_eq_true_eq]
  constructor
  · rintro ⟨⟨a, b⟩, ⟨hx, h1⟩, h2⟩
    simp only at h1 h2
    subst h1 h2
    exact hx
  · intro h
    exact ⟨⟨prID, u⟩, ⟨h, rfl⟩, rfl⟩

theorem reviewersIn_replace_same (rows : List ReviewerRow) (prID : String)
    (final : List String) : reviewersIn (replaceReviewers rows prID final) prID = final := by
  unfold reviewersIn replaceReviewers
  simp only [List.filter_append, List.map_append, List.filter_filter]
  have h1 : rows.filter (fun a => decide (a.pull_request_id = prID) &&
      decide (a.pull_request_id ≠ prID)) = [] := by
    apply List.filter_eq_nil_iff.mpr
    intro a _
    by_cases h : a.pull_request_id = prID <;> simp [h]
  rw [h1, List.map_nil, List.nil_append]
  induction final with
  | nil => rfl
  | cons a l ih =>
    simp only [List.map_cons, List.filter_cons, decide_True, if_true]
    rw [ih]

theorem reviewersIn_replace_other (rows : List ReviewerRow) {prID other : String}
    (h : other ≠ prID) (final : List String) :
    reviewersIn (replaceReviewers rows prID final) other = reviewersIn rows other := by
  unfold reviewersIn replaceReviewers
  simp only [List.filter_append, List.map_append, List.filter_filter]
  have h1 : (final.map (fun uid => ({ pull_request_id := prID, user_id := uid } : ReviewerRow))).filter
      (fun r => decide (r.pull_request_id = other)) = [] := by
    apply List.filter_eq_nil_iff.mpr
    intro a ha
    obtain ⟨u, _, rfl⟩ := List.mem_map.mp ha
    simpa using fun e : prID = other => h e.symm
  rw [h1, List.map_nil, List.append_nil]
  congr 1
  apply List.filter_congr
  intro a _
  by_cases h2 : a.pull_request_id = other
  · have : a.pull_request_id ≠ prID := h2 ▸ h
    simp [h2, h]
  · simp [h2]

/-- The cascade leaves the reviewers of a pull request it does not visit. -/
theorem reviewersIn_foldl_other (f : PR → List String) (prs : List PR)
    (rows : List ReviewerRow) {other : String} (h : ∀ pr ∈ prs, pr.ID ≠ other) :
    reviewersIn (prs.foldl (fun rows pr => replaceReviewers rows pr.ID (f pr)) rows) other =
      reviewersIn rows other := by
  induction prs generalizing rows with
  | nil => rfl
  | cons pr prs ih =>
    rw [List.foldl_cons, ih _ (fun q hq => h q (List.mem_cons_of_mem _ hq)),
      reviewersIn_replace_other rows (h pr (List.mem_cons_self _ _)).symm]

/-- The cascade gives a pull request it visits the reviewers computed for it. -/
theorem reviewersIn_foldl_mem (f : PR → List String) (prs : List PR)
    (hk : (prs.map (fun pr => pr.ID)).Nodup) (rows : List ReviewerRow) {pr : PR}
    (hpr : pr ∈ prs) :
    reviewersIn (prs.foldl (fun rows pr => replaceReviewers rows pr.ID (f pr)) rows) pr.ID =
      f pr := by
  induction prs generalizing rows with
  | nil => cases hpr
  | cons q prs ih =>
    simp only [List.map_cons, List.nodup_cons, List.mem_map, not_exists, not_and] at hk
    rw [List.foldl_cons]
    rcases List.mem_cons.mp hpr with h | h
    · subst h
      rw [reviewersIn_foldl_other f prs _ (fun x hx e => hk.1 x hx e),
        reviewersIn_replace_same]
    · exact ih hk.2 _ h

/-- The two outcomes of `BulkDeactivateUsers`: an error that leaves the database as it
was, or the cascade over the OPEN pull requests, each read with the reviewers stored for
it. -/
theorem bulk_cases (nullRow : Bool) (db : DB) (pick : String → Nat) (teamName : String)
    (userIDs : List String) :
    (∃ e, BulkDeactivateUsers nullRow db pick teamName userIDs = (.error e, db)) ∨
    BulkDeactivateUsers nullRow db pick teamName userIDs =
      (.ok (), { db with
        users := deactivate db.users teamName userIDs,
        pr_reviewers :=
          ((db.pull_requests.filter (fun p => decide (p.status = "OPEN"))).map
            (openPR db)).foldl
            (fun rows pr => replaceReviewers rows pr.ID
              (finalReviewers (activeOfTeam (deactivate db.users teamName userIDs) teamName)
                (pick pr.ID) pr))
            db.pr_reviewers }) := by
  unfold BulkDeactivateUsers
  cases h : scanOpenPRs nullRow db
      (db.pull_requests.filter (fun p => decide (p.status = "OPEN"))) with
  | error e => exact Or.inl ⟨e, rfl⟩
  | ok prs =>
    right
    simp only
    rw [scanOpenPRs_ok h]

theorem bulk_pull_requests (nullRow : Bool) (db : DB) (pick : String → Nat) (teamName : String)
    (userIDs : List String) :
    (BulkDeactivateUsers nullRow db pick teamName userIDs).2.pull_requests = db.pull_requests ∧
    (BulkDeactivateUsers nullRow db pick teamName userIDs).2.teams = db.teams := by
  rcases bulk_cases nullRow db pick teamName userIDs with ⟨e, h⟩ | h <;> rw [h] <;> exact ⟨rfl, rfl⟩

theorem bulk_users {nullRow : Bool} {db : DB} {pick : String → Nat} {teamName : String}
    {userIDs : List String}
    (hok : (BulkDeactivateUsers nullRow db pick teamName userIDs).1 = .ok ()) :
    (BulkDeactivateUsers nullRow db pick teamName userIDs).2.users =
      deactivate db.users teamName userIDs := by
  rcases bulk_cases nullRow db pick teamName userIDs with ⟨e, h⟩ | h
  · rw [h] at hok
    cases hok
  · rw [h]

/-- After a successful call an OPEN pull request has the reviewers the loop body computes
from the reviewers it had. -/
theorem bulk_reviewers_open {nullRow : Bool} {db : DB} {pick : String → Nat} {teamName : String}
    {userIDs : List String} (hk : (db.pull_requests.map (fun p => p.pull_request_id)).Nodup)
    (hok : (BulkDeactivateUsers nullRow db pick teamName userIDs).1 = .ok ())
    {p : PullRequestRow} (hp : p ∈ db.pull_requests) (ho : p.status = "OPEN") :
    reviewersOf (BulkDeactivateUsers nullRow db pick teamName userIDs).2 p.pull_request_id =
      finalReviewers (activeOfTeam (deactivate db.users teamName userIDs) teamName)
        (pick p.pull_request_id)
        (openPR db p) := by
  rcases bulk_cases nullRow db pick teamName userIDs with ⟨e, h⟩ | h
  · rw [h] at hok
    cases hok
  · rw [h]
    have hmem : openPR db p ∈
        (db.pull_requests.filter (fun p => decide (p.status = "OPEN"))).map
          (openPR db) :=
      List.mem_map.mpr ⟨p, List.mem_filter.mpr ⟨hp, by simpa using ho⟩, rfl⟩
    have hnd : (((db.pull_requests.filter (fun p => decide (p.status = "OPEN"))).map
          (openPR db)).map
          (fun pr => pr.ID)).Nodup := by
      rw [List.map_map]
      exact hk.sublist ((List.filter_sublist _).map _)
    exact reviewersIn_foldl_mem
      (fun pr => finalReviewers (activeOfTeam (deactivate db.users teamName userIDs) teamName)
        (pick pr.ID) pr) _ hnd db.pr_reviewers hmem

/-- A call leaves the reviewers of every pull request that has no OPEN row. -/
theorem bulk_reviewers_other (nullRow : Bool) (db : DB) (pick : String → Nat) (teamName : String)
    (userIDs : List String) {prID : String}
    (h : ∀ p ∈ db.pull_requests, p.pull_request_id = prID → p.status ≠ "OPEN") :
    reviewersOf (BulkDeactivateUsers nullRow db pick teamName userIDs).2 prID =
      reviewersOf db prID := by
  rcases bulk_cases nullRow db pick teamName userIDs with ⟨e, he⟩ | he
  · rw [he]
  · rw [he]
    apply reviewersIn_foldl_other
    intro pr hpr
    obtain ⟨p, hp, rfl⟩ := List.mem_map.mp hpr
    have hp' := List.mem_filter.mp hp
    intro e
    exact h p hp'.1 e (by simpa using hp'.2)

/-- A user the call lists is not an active member of the team afterwards. -/
theorem not_mem_ids_of_active {users : List UserRow} {teamName : String} {userIDs : List String}
    {u : String} (h : u ∈ activeOfTeam (deactivate users teamName userIDs) teamName) :
    u ∉ userIDs := by
  unfold activeOfTeam deactivate at h
  simp only [List.mem_map, List.mem_filter, Bool.and_eq_true, decide_eq_true_eq] at h
  obtain ⟨row', ⟨⟨row, hrow, rfl⟩, ht, ha⟩, rfl⟩ := h
  by_cases hc : row.team_name = teamName ∧ row.user_id ∈ userIDs
  · rw [if_pos hc] at ha
    cases ha
  · rw [if_neg hc] at ht ⊢
    exact fun hmem => hc ⟨ht, hmem⟩

theorem mem_eligibleSet_deactivate {db db' : DB} {teamName : String} (authorID : String)
    {userIDs : List String} (hu : db'.users = deactivate db.users teamName userIDs) (u : String) :
    u ∈ eligibleSet db' teamName authorID ↔
      u ∈ activeOfTeam (deactivate db.users teamName userIDs) teamName ∧ u ≠ authorID := by
  unfold eligibleSet activeOfTeam
  rw [hu]
  simp only [List.mem_map, List.mem_filter, Bool.and_eq_true, decide_eq_true_eq]
  constructor
  · rintro ⟨row, ⟨hrow, ht, ha, hne⟩, rfl⟩
    exact ⟨⟨row, ⟨hrow, ht, ha⟩, rfl⟩, hne⟩
  · rintro ⟨⟨row, ⟨hrow, ht, ha⟩, rfl⟩, hne⟩
    exact ⟨row, ⟨hrow, ht, ha, hne⟩, rfl⟩

/-- The slice `final` when no reviewer is retained. -/
theorem finalReviewers_of_none_active {active : List String} {r : Nat} {pr : PR}
    (h : ∀ u ∈ pr.Reviewers, u ∉ active) :
    (∃ c, c ∈ active ∧ c ≠ pr.Author ∧ c ∉ pr.Reviewers ∧ finalReviewers active r pr = [c]) ∨
    ((∀ c ∈ active, c ≠ pr.Author → c ∈ pr.Reviewers) ∧ finalReviewers active r pr = []) := by
  have hf : pr.Reviewers.filter (fun x => decide (x ∈ active)) = [] := by
    apply List.filter_eq_nil_iff.mpr
    intro a ha
    simpa using h a ha
  unfold finalReviewers
  simp only [hf, List.length_nil, if_true, List.nil_append]
  by_cases hlen : 0 < (active.filter
      (fun u => decide (u ≠ pr.Author) && !decide (u ∈ pr.Reviewers))).length
  · left
    rw [dif_pos hlen]
    have hm := List.get_mem (active.filter
      (fun u => decide (u ≠ pr.Author) && !decide (u ∈ pr.Reviewers)))
      (r % (active.filter
        (fun u => decide (u ≠ pr.Author) && !decide (u ∈ pr.Reviewers))).length)
      (Nat.mod_lt r hlen)
    have hm' := List.mem_filter.mp hm
    simp only [Bool.and_eq_true, decide_eq_true_eq, Bool.not_eq_true',
      decide_eq_false_iff_not] at hm'
    exact ⟨_, hm'.1, hm'.2.1, hm'.2.2, rfl⟩
  · right
    rw [dif_neg hlen]
    refine ⟨?_, rfl⟩
    intro c hc hne
    by_contra hnr
    apply hlen
    apply List.length_pos_of_mem (a := c)
    apply List.mem_filter.mpr
    simp [hc, hne, hnr]

/-- The aggregate of a pull request scans to the reviewers stored for it, unless it has
none and the aggregate then holds a NULL. -/
theorem scanStringArray_agg_ok {nullRow : Bool} {db : DB} {prID : String}
    (h : nullRow = true → reviewersOf db prID ≠ []) :
    scanStringArray (aggReviewers nullRow db prID) = .ok (reviewersOf db prID) := by
  unfold aggReviewers
  cases hr : reviewersOf db prID with
  | nil =>
    cases nullRow
    · rfl
    · exact absurd hr (h rfl)
  | cons a t => exact scanStringArray_some (a :: t)

theorem scanStringArray_agg_null {db : DB} {prID : String} (h : reviewersOf db prID = []) :
    scanStringArray (aggReviewers true db prID) = .error .ErrScanNull := by
  unfold aggReviewers
  rw [h]
  rfl

/-- The scan of the OPEN pull requests succeeds when none of them has an aggregate with a
NULL. -/
theorem scanOpenPRs_of_reviewed {nullRow : Bool} {db : DB} {rows : List PullRequestRow}
    (h : ∀ p ∈ rows, nullRow = true → reviewersOf db p.pull_request_id ≠ []) :
    scanOpenPRs nullRow db rows = .ok (rows.map (openPR db)) := by
  induction rows with
  | nil => rfl
  | cons p rest ih =>
    simp only [scanOpenPRs, scanStringArray_agg_ok (h p (List.mem_cons_self _ _)),
      ih (fun q hq => h q (List.mem_cons_of_mem _ hq)), List.map_cons]
    rfl

/-- The scan of the OPEN pull requests fails when one of them has no reviewer rows and the
aggregate of such a pull request holds a NULL. -/
theorem scanOpenPRs_null {db : DB} {rows : List PullRequestRow}
    (h : ∃ p ∈ rows, reviewersOf db p.pull_request_id = []) :
    scanOpenPRs true db rows = .error .ErrScanNull := by
  induction rows with
  | nil =>
    obtain ⟨p, hp, _⟩ := h
    cases hp
  | cons p rest ih =>
    by_cases hnil : reviewersOf db p.pull_request_id = []
    · simp only [scanOpenPRs, scanStringArray_agg_null hnil]
    · have hrest : ∃ q ∈ rest, reviewersOf db q.pull_request_id = [] := by
        obtain ⟨q, hq, hqn⟩ := h
        rcases List.mem_cons.mp hq with h1 | h1
        · exact absurd (h1 ▸ hqn) hnil
        · exact ⟨q, h1, hqn⟩
      have hhead : scanStringArray (aggReviewers true db p.pull_request_id) =
          .ok (reviewersOf db p.pull_request_id) := scanStringArray_agg_ok (fun _ => hnil)
      simp only [scanOpenPRs, hhead, ih hrest]

/-- When the call succeeds: whenever no OPEN pull request has an aggregate with a NULL. -/
theorem bulk_ok_of_reviewed {nullRow : Bool} {db : DB} (pick : String → Nat)
    (teamName : String) (userIDs : List String)
    (h : nullRow = true → ∀ q ∈ db.pull_requests, q.status = "OPEN" →
      reviewersOf db q.pull_request_id ≠ []) :
    (BulkDeactivateUsers nullRow db pick teamName userIDs).1 = .ok () := by
  have hscan : scanOpenPRs nullRow db
      (db.pull_requests.filter (fun p => decide (p.status = "OPEN"))) =
      .ok ((db.pull_requests.filter (fun p => decide (p.status = "OPEN"))).map (openPR db)) := by
    apply scanOpenPRs_of_reviewed
    intro p hp hn
    have hp' := List.mem_filter.mp hp
    exact h hn p hp'.1 (by simpa using hp'.2)
  unfold BulkDeactivateUsers
  simp only [hscan]

/-- When the call fails: whenever an OPEN pull request has no reviewer rows and the
aggregate of such a pull request holds a NULL; the database is then the one before. -/
theorem bulk_error_of_unreviewed {nullRow : Bool} {db : DB} (pick : String → Nat)
    (teamName : String) (userIDs : List String)
    (h : ¬ (nullRow = true → ∀ q ∈ db.pull_requests, q.status = "OPEN" →
      reviewersOf db q.pull_request_id ≠ [])) :
    BulkDeactivateUsers nullRow db pick teamName userIDs = (.error .ErrScanNull, db) := by
  rw [Classical.not_imp] at h
  obtain ⟨hn, hq⟩ := h
  subst hn
  have hex : ∃ p ∈ db.pull_requests.filter (fun p => decide (p.status = "OPEN")),
      reviewersOf db p.pull_request_id = [] := by
    by_contra hno
    apply hq
    intro q hqm hqo hnil
    exact hno ⟨q, List.mem_filter.mpr ⟨hqm, by simpa using hqo⟩, hnil⟩
  unfold BulkDeactivateUsers
  simp only [scanOpenPRs_null hex]

/-- C9: let `p` be an OPEN pull request authored by a member of team `teamName`, all of
whose reviewers are members of that team and are listed in `userIDs`, in a database that
satisfies the schema. `BulkDeactivateUsers teamName userIDs` returns no error whenever the
scan of the OPEN pull requests meets no NULL (always when `nullRow = false`; when
`nullRow = true`, when every OPEN pull request has a reviewer), and then: if the set `E`
of the active members of the team after the deactivation, without the author of `p`, is
not empty, `p` has exactly one reviewer and it belongs to `E`; if `E` is empty, `p` has no
reviewer, and the call has still returned no error. In the remaining case the call fails
with the scan error and changes nothing, so these are all the successful calls. -/
theorem bulk_backfills_one (nullRow : Bool) (db : DB) (hS : Schema db) (pick : String → Nat)
    (teamName : String) (userIDs : List String) (p : PullRequestRow)
    (hp : p ∈ db.pull_requests) (ho : p.status = "OPEN")
    (_hauthor : ∃ a ∈ db.users, a.user_id = p.author_id ∧ a.team_name = teamName)
    (hrev : ∀ u ∈ reviewersOf db p.pull_request_id,
      u ∈ userIDs ∧ ∃ row ∈ db.users, row.user_id = u ∧ row.team_name = teamName) :
    ((nullRow = true → ∀ q ∈ db.pull_requests, q.status = "OPEN" →
        reviewersOf db q.pull_request_id ≠ []) →
      (BulkDeactivateUsers nullRow db pick teamName userIDs).1 = .ok () ∧
      (eligibleSet (BulkDeactivateUsers nullRow db pick teamName userIDs).2 teamName
          p.author_id ≠ [] →
        ∃ u ∈ eligibleSet (BulkDeactivateUsers nullRow db pick teamName userIDs).2 teamName
            p.author_id,
          reviewersOf (BulkDeactivateUsers nullRow db pick teamName userIDs).2
            p.pull_request_id = [u]) ∧
      (eligibleSet (BulkDeactivateUsers nullRow db pick teamName userIDs).2 teamName
          p.author_id = [] →
        reviewersOf (BulkDeactivateUsers nullRow db pick teamName userIDs).2
          p.pull_request_id = [])) ∧
    (¬ (nullRow = true → ∀ q ∈ db.pull_requests, q.status = "OPEN" →
        reviewersOf db q.pull_request_id ≠ []) →
      BulkDeactivateUsers nullRow db pick teamName userIDs = (.error .ErrScanNull, db)) := by
  refine ⟨fun hscan => ?_, bulk_error_of_unreviewed pick teamName userIDs⟩
  have hok := bulk_ok_of_reviewed pick teamName userIDs hscan
  refine ⟨hok, ?_⟩
  have hmemE := mem_eligibleSet_deactivate p.author_id (bulk_users hok)
  rw [bulk_reviewers_open hS.prs_key hok hp ho]
  have hnone : ∀ u ∈ (openPR db p).Reviewers,
      u ∉ activeOfTeam (deactivate db.users teamName userIDs) teamName :=
    fun u hu hact => not_mem_ids_of_active hact (hrev u hu).1
  rcases finalReviewers_of_none_active (r := pick p.pull_request_id) hnone with
    ⟨c, hc, hne, _, hfin⟩ | ⟨hall, hfin⟩
  · rw [hfin]
    have hcE := (hmemE c).mpr ⟨hc, hne⟩
    refine ⟨fun _ => ⟨c, hcE, rfl⟩, fun hE => ?_⟩
    rw [hE] at hcE
    cases hcE
  · rw [hfin]
    refine ⟨fun hE => ?_, fun _ => rfl⟩
    obtain ⟨c, hc⟩ := List.exists_mem_of_ne_nil _ hE
    have hc' := (hmemE c).mp hc
    exact absurd (hall c hc'.1 hc'.2) (hnone c · hc'.1)

theorem bulk_backfills_one_witness :
    (Schema dbA1 ∧
      reviewersOf dbA1 "p1" = ["u2", "u3"] ∧
      (BulkDeactivateUsers true dbA1 (fun _ => 0) "A" ["u2", "u3"]).1 = .ok () ∧
      eligibleSet (BulkDeactivateUsers true dbA1 (fun _ => 0) "A" ["u2", "u3"]).2 "A" "u1" =
        ["u4"] ∧
      ∃ u ∈ eligibleSet (BulkDeactivateUsers true dbA1 (fun _ => 0) "A" ["u2", "u3"]).2 "A"
          "u1",
        reviewersOf (BulkDeactivateUsers true dbA1 (fun _ => 0) "A" ["u2", "u3"]).2 "p1" =
          [u]) ∧
    (Schema dbP1 ∧
      reviewersOf dbP1 "p1" = ["u2", "u3"] ∧
      eligibleSet (BulkDeactivateUsers true dbP1 (fun _ => 0) "T" ["u2", "u3"]).2 "T" "u1" =
        [] ∧
      (BulkDeactivateUsers true dbP1 (fun _ => 0) "T" ["u2", "u3"]).1 = .ok () ∧
      reviewersOf (BulkDeactivateUsers true dbP1 (fun _ => 0) "T" ["u2", "u3"]).2 "p1" = []) ∧
    (Schema dbBare ∧
      reviewersOf dbBare "p1" = [] ∧
      (BulkDeactivateUsers false dbBare (fun _ => 0) "T" ["u1"]).1 = .ok () ∧
      reviewersOf (BulkDeactivateUsers false dbBare (fun _ => 0) "T" ["u1"]).2 "p1" = [] ∧
      BulkDeactivateUsers true dbBare (fun _ => 0) "T" ["u1"] = (.error .ErrScanNull, dbBare)) :=
  have hA := (bulk_backfills_one true dbA1 ⟨by decide, by decide, by decide, by decide⟩
    (fun _ => 0) "A" ["u2", "u3"] ⟨"p1", "New login", "u1", "OPEN", 1, none⟩ (by decide)
    (by decide) (by decide) (by decide)).1 (by decide)
  have hP := (bulk_backfills_one true dbP1 ⟨by decide, by decide, by decide, by decide⟩
    (fun _ => 0) "T" ["u2", "u3"] ⟨"p1", "New login", "u1", "OPEN", 1, none⟩ (by decide)
    (by decide) (by decide) (by decide)).1 (by decide)
  have hF := (bulk_backfills_one false dbBare ⟨by decide, by decide, by decide, by decide⟩
    (fun _ => 0) "T" ["u1"] ⟨"p1", "New login", "u1", "OPEN", 1, none⟩ (by decide)
    (by decide) (by decide) (by decide)).1 (by decide)
  have hT := (bulk_backfills_one true dbBare ⟨by decide, by decide, by decide, by decide⟩
    (fun _ => 0) "T" ["u1"] ⟨"p1", "New login", "u1", "OPEN", 1, none⟩ (by decide)
    (by decide) (by decide) (by decide)).2 (by decide)
  ⟨⟨⟨by decide, by decide, by decide, by decide⟩, by decide, hA.1, by decide,
      hA.2.1 (by decide)⟩,
    ⟨⟨by decide, by decide, by decide, by decide⟩, by decide, by decide, hP.1,
      hP.2.2 (by decide)⟩,
    ⟨⟨by decide, by decide, by decide, by decide⟩, by decide, hF.1, hF.2.2 (by decide), hT⟩⟩

/-- C10, the code at the failing input: team `S` owns the OPEN pull request `q1`, authored
by `s1` and reviewed by `s2` and `s3`. `BulkDeactivateUsers "T" ["u2"]` succeeds, `s2` is
still active afterwards, and yet `s2` is no longer a reviewer of `q1`: the reviewers of
`q1` are replaced by `u1`, an active member of team `T`. This holds with either reading of
the aggregate of a pull request without reviewers. -/
theorem bulk_drops_active_reviewer_of_other_team :
    findPR dbTS "q1" = some ⟨"q1", "Search", "s1", "OPEN", 2, none⟩ ∧
    reviewersOf dbTS "q1" = ["s2", "s3"] ∧
    (BulkDeactivateUsers true dbTS (fun _ => 0) "T" ["u2"]).1 = .ok () ∧
    findUser (BulkDeactivateUsers true dbTS (fun _ => 0) "T" ["u2"]).2 "s2" =
      some ⟨"s2", "emil", "S", true⟩ ∧
    "s2" ∉ reviewersOf (BulkDeactivateUsers true dbTS (fun _ => 0) "T" ["u2"]).2 "q1" ∧
    reviewersOf (BulkDeactivateUsers true dbTS (fun _ => 0) "T" ["u2"]).2 "q1" = ["u1"] ∧
    BulkDeactivateUsers false dbTS (fun _ => 0) "T" ["u2"] =
      BulkDeactivateUsers true dbTS (fun _ => 0) "T" ["u2"] := by
  decide

/-! ## What each call does to the database -/

theorem upsertTeam_frame (db : DB) (t : Team) :
    (UpsertTeam db t).2.pull_requests = db.pull_requests ∧
    (UpsertTeam db t).2.pr_reviewers = db.pr_reviewers :=
  ⟨rfl, rfl⟩

theorem setUserActive_frame (db : DB) (userID : String) (isActive : Bool) :
    (SetUserActive db userID isActive).2.pull_requests = db.pull_requests ∧
    (SetUserActive db userID isActive).2.pr_reviewers = db.pr_reviewers := by
  unfold SetUserActive
  by_cases h : db.users.any (fun u => decide (u.user_id = userID)) = true
  · simp only [h, if_true]
    cases findUser { db with users := db.users.map (fun u =>
      if u.user_id = userID then { u with is_active := isActive } else u) } userID <;>
      exact ⟨rfl, rfl⟩
  · simp only [h]
    exact ⟨rfl, rfl⟩

/-- The database after `CreatePR`: unchanged, or with the new pull request and its
reviewers inserted. -/
theorem createPR_cases (db : DB) (rnd : UserRow → Nat) (now : Nat) (pr : PullRequest) :
    (CreatePR db rnd now pr).2 = db ∨
    ∃ author, (∀ p ∈ db.pull_requests, p.pull_request_id ≠ pr.PullRequestID) ∧
      findUser db pr.AuthorID = some author ∧
      (CreatePR db rnd now pr).2 =
        insertPR db now pr (pickReviewers db rnd author.team_name pr.AuthorID) := by
  unfold CreatePR
  by_cases hany : db.pull_requests.any (fun p => decide (p.pull_request_id = pr.PullRequestID))
      = true
  · left
    simp only [hany, if_true]
  · cases hf : findUser db pr.AuthorID with
    | none =>
      left
      simp only [hany, hf]
      rfl
    | some author =>
      right
      refine ⟨author, ?_, rfl, ?_⟩
      · intro p hp he
        apply hany
        exact List.any_eq_true.mpr ⟨p, hp, by simpa using he⟩
      · simp only [hany, hf]
        rfl

/-- The database after `MergePR`: unchanged, or with the row of an unmerged pull request
updated. -/
theorem mergePR_cases (db : DB) (now : Nat) (prID : String) :
    (MergePR db now prID).2 = db ∨
    ∃ p, findPR db prID = some p ∧ p.status ≠ "MERGED" ∧
      (MergePR db now prID).2 = setMerged db now prID := by
  unfold MergePR
  cases hf : findPR db prID with
  | none =>
    left
    rfl
  | some p =>
    by_cases hm : p.status = "MERGED"
    · left
      simp only [hm, if_true]
    · right
      exact ⟨p, rfl, hm, by simp only [hm, if_false]⟩

/-- The database after `ReassignReviewer`: unchanged, or with one assignment of an
unmerged pull request swapped for a candidate. -/
theorem reassign_cases (db : DB) (rnd : UserRow → Nat) (r : Nat) (prID oldUserID : String) :
    (ReassignReviewer db rnd r prID oldUserID).2 = db ∨
    ∃ p old new, findPR db prID = some p ∧ p.status ≠ "MERGED" ∧
      oldUserID ∈ reviewersOf db prID ∧ findUser db oldUserID = some old ∧
      new ∈ reassignCandidates db rnd prID old.team_name p.author_id oldUserID ∧
      (ReassignReviewer db rnd r prID oldUserID).2 = swapReviewer db prID oldUserID new := by
  unfold ReassignReviewer
  cases hf : findPR db prID with
  | none =>
    left
    rfl
  | some p =>
    by_cases hm : p.status = "MERGED"
    · left
      simp only [hm, if_true]
    · by_cases ha : oldUserID ∈ reviewersOf db prID
      · cases hu : findUser db oldUserID with
        | none =>
          left
          simp only [hm, if_false, any_assigned.mpr ha, Bool.not_true, hu]
          rfl
        | some old =>
          by_cases hlen : 0 <
              (reassignCandidates db rnd prID old.team_name p.author_id oldUserID).length
          · right
            refine ⟨p, old, _, rfl, hm, ha, rfl,
              List.get_mem _ (r % (reassignCandidates db rnd prID old.team_name p.author_id
                oldUserID).length) (Nat.mod_lt r hlen), ?_⟩
            have hfind : ∀ new, findPR (swapReviewer db prID oldUserID new) prID = some p :=
              fun _ => hf
            simp only [hm, if_false, any_assigned.mpr ha, Bool.not_true, hu, hlen, dite_true,
              GetPR, hfind]
            rfl
          · left
            simp only [hm, if_false, any_assigned.mpr ha, Bool.not_true, hu, hlen, dite_false]
            rfl
      · left
        have hna : db.pr_reviewers.any (fun x =>
            decide (x.pull_request_id = prID) && decide (x.user_id = oldUserID)) = false := by
          rw [← Bool.not_eq_true]
          exact fun h => ha (any_assigned.mp h)
        simp only [hm, if_false, hna, Bool.not_false, if_true]

/-! ## Merged pull requests are frozen -/

theorem pr_unique {l : List PullRequestRow}
    (hk : (l.map (fun p => p.pull_request_id)).Nodup) {p q : PullRequestRow}
    (hp : p ∈ l) (hq : q ∈ l) (he : p.pull_request_id = q.pull_request_id) : p = q :=
  List.inj_on_of_nodup_map hk hp hq he

theorem findPR_congr {db db' : DB} (h : db'.pull_requests = db.pull_requests) (prID : String) :
    findPR db' prID = findPR db prID := by
  unfold findPR
  rw [h]

theorem reviewersOf_insertPR_other (db : DB) (now : Nat) (pr : PullRequest)
    (reviewers : List String) {prID : String} (h : pr.PullRequestID ≠ prID) :
    reviewersOf (insertPR db now pr reviewers) prID = reviewersOf db prID := by
  unfold reviewersOf reviewersIn insertPR
  simp only [List.filter_append, List.map_append]
  have h1 : (reviewers.map (fun uid =>
      ({ pull_request_id := pr.PullRequestID, user_id := uid } : ReviewerRow))).filter
      (fun r => decide (r.pull_request_id = prID)) = [] := by
    apply List.filter_eq_nil_iff.mpr
    intro a ha
    obtain ⟨u, _, rfl⟩ := List.mem_map.mp ha
    simpa using h
  rw [h1, List.map_nil, List.append_nil]

theorem findPR_insertPR_old (db : DB) (now : Nat) (pr : PullRequest) (reviewers : List String)
    {prID : String} {p : PullRequestRow} (hp : findPR db prID = some p) :
    findPR (insertPR db now pr reviewers) prID = some p := by
  unfold findPR insertPR
  unfold findPR at hp
  simp only [List.find?_append, hp]
  rfl

theorem findPR_setMerged_other (db : DB) (now : Nat) {q prID : String} (h : q ≠ prID) :
    findPR (setMerged db now q) prID = findPR db prID := by
  unfold findPR setMerged
  simp only
  induction db.pull_requests with
  | nil => rfl
  | cons a l ih =>
    by_cases ha : a.pull_request_id = q
    · have hne : ¬ a.pull_request_id = prID := fun e => h (ha.symm.trans e)
      simp only [List.map_cons, List.find?_cons, ha, if_true, hne, decide_False]
      have hne' : ¬ q = prID := h
      simp only [hne', decide_False]
      exact ih
    · simp only [List.map_cons, List.find?_cons, ha, if_false]
      rw [ih]

theorem reviewersOf_swap_other (db : DB) (oldUserID new : String) {q prID : String}
    (h : q ≠ prID) :
    reviewersOf (swapReviewer db q oldUserID new) prID = reviewersOf db prID := by
  unfold reviewersOf reviewersIn swapReviewer
  simp only [List.filter_append, List.map_append, List.filter_filter]
  have h1 : ([({ pull_request_id := q, user_id := new } : ReviewerRow)]).filter
      (fun r => decide (r.pull_request_id = prID)) = [] := by
    simp [h]
  rw [h1, List.map_nil, List.append_nil]
  congr 1
  apply List.filter_congr
  intro a _
  by_cases h2 : a.pull_request_id = prID
  · have : ¬ prID = q := fun e => h e.symm
    simp [h2, this]
  · simp [h2]

/-- C3: once a pull request is MERGED its reviewers are frozen. In a database that
satisfies the schema, for a pull request whose stored status is MERGED and for any single
call of `UpsertTeam`, `SetUserActive`, `CreatePR`, `MergePR`, `ReassignReviewer` or
`BulkDeactivateUsers` with any arguments, successful or not, the reviewers of the pull
request after the call are the reviewers before it, and its row, hence its status MERGED,
is the same. -/
theorem merged_reviewers_frozen (db : DB) (hS : Schema db) (prID : String) (p : PullRequestRow)
    (hp : findPR db prID = some p) (hm : p.status = "MERGED") (op : Op) :
    reviewersOf (op.run db) prID = reviewersOf db prID ∧
    findPR (op.run db) prID = some p ∧
    ∃ p', findPR (op.run db) prID = some p' ∧ p'.status = "MERGED" := by
  have hmem := findPR_some hp
  suffices h : reviewersOf (op.run db) prID = reviewersOf db prID ∧
      findPR (op.run db) prID = some p from ⟨h.1, h.2, p, h.2, hm⟩
  cases op with
  | upsertTeam t => exact ⟨rfl, hp⟩
  | setUserActive userID isActive =>
    have hf := setUserActive_frame db userID isActive
    exact ⟨congrArg (reviewersIn · prID) hf.2, (findPR_congr hf.1 prID).trans hp⟩
  | createPR rnd now pr =>
    show reviewersOf (CreatePR db rnd now pr).2 prID = _ ∧ findPR (CreatePR db rnd now pr).2 prID = _
    rcases createPR_cases db rnd now pr with h | ⟨author, hnew, _, h⟩
    · rw [h]
      exact ⟨rfl, hp⟩
    · rw [h]
      have hne : pr.PullRequestID ≠ prID := fun e => hnew p hmem.1 (hmem.2.trans e.symm)
      exact ⟨reviewersOf_insertPR_other db now pr _ hne, findPR_insertPR_old db now pr _ hp⟩
  | mergePR now q =>
    show reviewersOf (MergePR db now q).2 prID = _ ∧ findPR (MergePR db now q).2 prID = _
    rcases mergePR_cases db now q with h | ⟨p2, hp2, hnm, h⟩
    · rw [h]
      exact ⟨rfl, hp⟩
    · rw [h]
      have hne : q ≠ prID := by
        intro e
        rw [e, hp] at hp2
        cases hp2
        exact hnm hm
      exact ⟨rfl, (findPR_setMerged_other db now hne).trans hp⟩
  | reassignReviewer rnd r q oldUserID =>
    show reviewersOf (ReassignReviewer db rnd r q oldUserID).2 prID = _ ∧
      findPR (ReassignReviewer db rnd r q oldUserID).2 prID = _
    rcases reassign_cases db rnd r q oldUserID with h | ⟨p2, old, new, hp2, hnm, _, _, _, h⟩
    · rw [h]
      exact ⟨rfl, hp⟩
    · rw [h]
      have hne : q ≠ prID := by
        intro e
        rw [e, hp] at hp2
        cases hp2
        exact hnm hm
      exact ⟨reviewersOf_swap_other db oldUserID new hne, hp⟩
  | bulkDeactivateUsers nullRow pick teamName userIDs =>
    show reviewersOf (BulkDeactivateUsers nullRow db pick teamName userIDs).2 prID = _ ∧
      findPR (BulkDeactivateUsers nullRow db pick teamName userIDs).2 prID = _
    refine ⟨bulk_reviewers_other nullRow db pick teamName userIDs ?_,
      (findPR_congr (bulk_pull_requests nullRow db pick teamName userIDs).1 prID).trans hp⟩
    intro p' hp' he ho
    have := pr_unique hS.prs_key hp' hmem.1 (he.trans hmem.2.symm)
    rw [this, hm] at ho
    exact absurd ho (by decide)

theorem merged_reviewers_frozen_witness :
    Schema dbMerged ∧
    findPR dbMerged "p1" = some ⟨"p1", "New login", "u1", "MERGED", 1, some 5⟩ ∧
    reviewersOf
      ((Op.bulkDeactivateUsers true (fun _ => 0) "T" ["u2", "u3"]).run dbMerged) "p1" =
        reviewersOf dbMerged "p1" ∧
    findPR ((Op.bulkDeactivateUsers true (fun _ => 0) "T" ["u2", "u3"]).run dbMerged) "p1" =
      some ⟨"p1", "New login", "u1", "MERGED", 1, some 5⟩ :=
  have h := merged_reviewers_frozen dbMerged ⟨by decide, by decide, by decide, by decide⟩ "p1"
    ⟨"p1", "New login", "u1", "MERGED", 1, some 5⟩ (by decide) (by decide)
    (Op.bulkDeactivateUsers true (fun _ => 0) "T" ["u2", "u3"])
  ⟨⟨by decide, by decide, by decide, by decide⟩, by decide, h.1, h.2.1⟩

/-! ## The schema is kept by every call -/

theorem upsertUser_nodup {users : List UserRow} (u : UserRow)
    (hk : (users.map (fun x => x.user_id)).Nodup) :
    ((upsertUser users u).map (fun x => x.user_id)).Nodup := by
  unfold upsertUser
  by_cases hany : users.any (fun x => decide (x.user_id = u.user_id)) = true
  · simp only [hany, if_true, List.map_map]
    have : (fun x => x.user_id) ∘ (fun x : UserRow => if x.user_id = u.user_id then u else x) =
        fun x => x.user_id := by
      funext x
      by_cases h : x.user_id = u.user_id <;> simp [h]
    rw [this]
    exact hk
  · rw [if_neg hany, List.map_append, List.map_cons, List.map_nil]
    apply List.Nodup.append hk (List.nodup_singleton _)
    intro a ha hb
    rw [List.mem_singleton] at hb
    subst hb
    obtain ⟨x, hx, he⟩ := List.mem_map.mp ha
    exact hany (List.any_eq_true.mpr ⟨x, hx, by simpa using he⟩)

theorem upsertTeam_users_nodup (db : DB) (t : Team)
    (hk : (db.users.map (fun x => x.user_id)).Nodup) :
    ((UpsertTeam db t).2.users.map (fun x => x.user_id)).Nodup := by
  unfold UpsertTeam
  simp only
  generalize db.users = users at hk
  induction t.Members generalizing users with
  | nil => exact hk
  | cons m ms ih => exact ih _ (upsertUser_nodup _ hk)

theorem setUserActive_user_ids (db : DB) (userID : String) (isActive : Bool) :
    (SetUserActive db userID isActive).2.users.map (fun x => x.user_id) =
      db.users.map (fun x => x.user_id) := by
  have hmap : (db.users.map (fun u =>
      if u.user_id = userID then { u with is_active := isActive } else u)).map
      (fun x => x.user_id) = db.users.map (fun x => x.user_id) := by
    rw [List.map_map]
    apply List.map_congr_left
    intro x _
    by_cases h : x.user_id = userID <;> simp [h]
  unfold SetUserActive
  by_cases h : db.users.any (fun u => decide (u.user_id = userID)) = true
  · simp only [h, if_true]
    cases findUser { db with users := db.users.map (fun u =>
      if u.user_id = userID then { u with is_active := isActive } else u) } userID <;>
      exact hmap
  · simp only [h]
    rfl

theorem deactivate_user_ids (users : List UserRow) (teamName : String) (userIDs : List String) :
    (deactivate users teamName userIDs).map (fun x => x.user_id) =
      users.map (fun x => x.user_id) := by
  unfold deactivate
  rw [List.map_map]
  apply List.map_congr_left
  intro x _
  by_cases h : x.team_name = teamName ∧ x.user_id ∈ userIDs <;> simp [h]

theorem schema_upsertTeam {db : DB} (hS : Schema db) (t : Team) : Schema (UpsertTeam db t).2 :=
  ⟨upsertTeam_users_nodup db t hS.users_key, hS.prs_key, hS.reviewers_key, hS.reviewers_pr⟩

theorem schema_setUserActive {db : DB} (hS : Schema db) (userID : String) (isActive : Bool) :
    Schema (SetUserActive db userID isActive).2 := by
  have hf := setUserActive_frame db userID isActive
  refine ⟨?_, ?_, ?_, ?_⟩
  · rw [setUserActive_user_ids]
    exact hS.users_key
  · rw [hf.1]
    exact hS.prs_key
  · rw [hf.2]
    exact hS.reviewers_key
  · rw [hf.1, hf.2]
    exact hS.reviewers_pr

theorem schema_insertPR {db : DB} (hS : Schema db) (now : Nat) (pr : PullRequest)
    {reviewers : List String} (hnd : reviewers.Nodup)
    (hnew : ∀ p ∈ db.pull_requests, p.pull_request_id ≠ pr.PullRequestID) :
    Schema (insertPR db now pr reviewers) := by
  refine ⟨hS.users_key, ?_, ?_, ?_⟩
  · show ((db.pull_requests ++ [_]).map (fun p : PullRequestRow => p.pull_request_id)).Nodup
    rw [List.map_append, List.map_cons, List.map_nil]
    apply List.Nodup.append hS.prs_key (List.nodup_singleton _)
    intro a ha hb
    rw [List.mem_singleton] at hb
    obtain ⟨p, hp, he⟩ := List.mem_map.mp ha
    exact hnew p hp (he.trans hb)
  · show (db.pr_reviewers ++ reviewers.map _).Nodup
    apply List.Nodup.append hS.reviewers_key
    · apply hnd.map
      intro a b hab
      exact congrArg ReviewerRow.user_id hab
    · intro x hx hx'
      obtain ⟨u, _, rfl⟩ := List.mem_map.mp hx'
      obtain ⟨p, hp, he⟩ := hS.reviewers_pr _ hx
      exact hnew p hp he
  · intro x hx
    rcases List.mem_append.mp hx with h | h
    · obtain ⟨p, hp, he⟩ := hS.reviewers_pr x h
      exact ⟨p, List.mem_append_left _ hp, he⟩
    · obtain ⟨u, _, rfl⟩ := List.mem_map.mp h
      exact ⟨_, List.mem_append_right _ (List.mem_singleton_self _), rfl⟩

theorem schema_createPR {db : DB} (hS : Schema db) (rnd : UserRow → Nat) (now : Nat)
    (pr : PullRequest) : Schema (CreatePR db rnd now pr).2 := by
  rcases createPR_cases db rnd now pr with h | ⟨author, hnew, _, h⟩
  · rw [h]
    exact hS
  · rw [h]
    exact schema_insertPR hS now pr (nodup_pickReviewers hS.users_key rnd _ _) hnew

theorem setMerged_ids (db : DB) (now : Nat) (prID : String) :
    (setMerged db now prID).pull_requests.map (fun p => p.pull_request_id) =
      db.pull_requests.map (fun p => p.pull_request_id) := by
  unfold setMerged
  simp only [List.map_map]
  apply List.map_congr_left
  intro x _
  by_cases h : x.pull_request_id = prID <;> simp [h]

theorem schema_mergePR {db : DB} (hS : Schema db) (now : Nat) (prID : String) :
    Schema (MergePR db now prID).2 := by
  rcases mergePR_cases db now prID with h | ⟨p, _, _, h⟩
  · rw [h]
    exact hS
  · rw [h]
    refine ⟨hS.users_key, ?_, hS.reviewers_key, ?_⟩
    · rw [setMerged_ids]
      exact hS.prs_key
    · intro x hx
      obtain ⟨q, hq, he⟩ := hS.reviewers_pr x hx
      have : q.pull_request_id ∈ (setMerged db now prID).pull_requests.map
          (fun p => p.pull_request_id) := by
        rw [setMerged_ids]
        exact List.mem_map.mpr ⟨q, hq, rfl⟩
      obtain ⟨q', hq', he'⟩ := List.mem_map.mp this
      exact ⟨q', hq', he'.trans he⟩

theorem schema_swapReviewer {db : DB} (hS : Schema db) {prID oldUserID new : String}
    {p : PullRequestRow} (hp : findPR db prID = some p) (hnew : new ∉ reviewersOf db prID) :
    Schema (swapReviewer db prID oldUserID new) := by
  refine ⟨hS.users_key, hS.prs_key, ?_, ?_⟩
  · show (db.pr_reviewers.filter _ ++ [_]).Nodup
    apply List.Nodup.append (hS.reviewers_key.filter _) (List.nodup_singleton _)
    intro x hx hx'
    rw [List.mem_singleton] at hx'
    subst hx'
    exact hnew (mem_reviewersOf.mpr (List.mem_of_mem_filter hx))
  · intro x hx
    rcases List.mem_append.mp hx with h | h
    · exact hS.reviewers_pr x (List.mem_of_mem_filter h)
    · rw [List.mem_singleton] at h
      subst h
      exact ⟨p, (findPR_some hp).1, (findPR_some hp).2⟩

theorem not_mem_reviewers_of_pool {db : DB} {team authorID prID u : String}
    (h : u ∈ candidatePool db team authorID prID) :
    u ≠ authorID ∧ u ∉ reviewersOf db prID := by
  unfold candidatePool at h
  simp only [List.mem_map, List.mem_filter, decide_eq_true_eq] at h
  obtain ⟨row, ⟨_, _, _, hne, hnr⟩, rfl⟩ := h
  exact ⟨hne, hnr⟩

theorem schema_reassign {db : DB} (hS : Schema db) (rnd : UserRow → Nat) (r : Nat)
    (prID oldUserID : String) : Schema (ReassignReviewer db rnd r prID oldUserID).2 := by
  rcases reassign_cases db rnd r prID oldUserID with h | ⟨p, old, new, hp, _, ha, _, hn, h⟩
  · rw [h]
    exact hS
  · rw [h]
    exact schema_swapReviewer hS hp
      (not_mem_reviewers_of_pool ((mem_reassignCandidates rnd ha new).mp hn)).2

theorem nodup_reviewersIn {rows : List ReviewerRow} (h : rows.Nodup) (prID : String) :
    (reviewersIn rows prID).Nodup := by
  unfold reviewersIn
  apply List.Nodup.map_on _ (h.filter _)
  intro x hx y hy hxy
  have hx' := (List.mem_filter.mp hx).2
  have hy' := (List.mem_filter.mp hy).2
  simp only [decide_eq_true_eq] at hx' hy'
  cases x
  cases y
  simp only at hx' hy' hxy
  subst hx' hy' hxy
  rfl

/-- A reviewer the loop body keeps or adds: one of the previous reviewers, or an active
member of the team that is not the author. -/
theorem mem_finalReviewers {active : List String} {r : Nat} {pr : PR} {u : String}
    (h : u ∈ finalReviewers active r pr) :
    (u ∈ pr.Reviewers ∧ u ∈ active) ∨ (u ∈ active ∧ u ≠ pr.Author ∧ u ∉ pr.Reviewers) := by
  unfold finalReviewers at h
  by_cases hlen0 : (pr.Reviewers.filter (fun x => decide (x ∈ active))).length = 0
  · simp only [hlen0, if_true] at h
    by_cases hlen : 0 < (active.filter
        (fun u => decide (u ≠ pr.Author) && !decide (u ∈ pr.Reviewers))).length
    · rw [dif_pos hlen] at h
      rcases List.mem_append.mp h with h1 | h1
      · have := List.mem_filter.mp h1
        exact Or.inl ⟨this.1, by simpa using this.2⟩
      · rw [List.mem_singleton] at h1
        have hm := List.get_mem (active.filter
          (fun u => decide (u ≠ pr.Author) && !decide (u ∈ pr.Reviewers)))
          (r % (active.filter
            (fun u => decide (u ≠ pr.Author) && !decide (u ∈ pr.Reviewers))).length)
          (Nat.mod_lt r hlen)
        rw [← h1] at hm
        have hm' := List.mem_filter.mp hm
        simp only [Bool.and_eq_true, decide_eq_true_eq, Bool.not_eq_true',
          decide_eq_false_iff_not] at hm'
        exact Or.inr ⟨hm'.1, hm'.2.1, hm'.2.2⟩
    · rw [dif_neg hlen] at h
      have := List.mem_filter.mp h
      exact Or.inl ⟨this.1, by simpa using this.2⟩
  · simp only [hlen0, if_false] at h
    have := List.mem_filter.mp h
    exact Or.inl ⟨this.1, by simpa using this.2⟩

theorem nodup_finalReviewers {active : List String} {r : Nat} {pr : PR}
    (h : pr.Reviewers.Nodup) : (finalReviewers active r pr).Nodup := by
  unfold finalReviewers
  by_cases hlen0 : (pr.Reviewers.filter (fun x => decide (x ∈ active))).length = 0
  · have hnil := List.length_eq_zero.mp hlen0
    simp only [hlen0, if_true, hnil, List.nil_append]
    by_cases hlen : 0 < (active.filter
        (fun u => decide (u ≠ pr.Author) && !decide (u ∈ pr.Reviewers))).length
    · rw [dif_pos hlen]
      exact List.nodup_singleton _
    · rw [dif_neg hlen]
      exact List.nodup_nil
  · simp only [hlen0, if_false]
    exact h.filter _

theorem nodup_replaceReviewers {rows : List ReviewerRow} (h : rows.Nodup) (prID : String)
    {final : List String} (hf : final.Nodup) : (replaceReviewers rows prID final).Nodup := by
  unfold replaceReviewers
  apply List.Nodup.append (h.filter _)
  · apply hf.map
    intro a b hab
    exact congrArg ReviewerRow.user_id hab
  · intro x hx hx'
    obtain ⟨u, _, rfl⟩ := List.mem_map.mp hx'
    have := (List.mem_filter.mp hx).2
    simp at this

theorem nodup_foldl_replace (f : PR → List String) (prs : List PR) (rows : List ReviewerRow)
    (h : rows.Nodup) (hf : ∀ pr ∈ prs, (f pr).Nodup) :
    (prs.foldl (fun rows pr => replaceReviewers rows pr.ID (f pr)) rows).Nodup := by
  induction prs generalizing rows with
  | nil => exact h
  | cons pr prs ih =>
    rw [List.foldl_cons]
    exact ih _ (nodup_replaceReviewers h pr.ID (hf pr (List.mem_cons_self _ _)))
      (fun q hq => hf q (List.mem_cons_of_mem _ hq))

theorem foldl_replace_ids (f : PR → List String) (prs : List PR) (rows : List ReviewerRow)
    (S : String → Prop) (h : ∀ x ∈ rows, S x.pull_request_id) (hprs : ∀ pr ∈ prs, S pr.ID) :
    ∀ x ∈ prs.foldl (fun rows pr => replaceReviewers rows pr.ID (f pr)) rows,
      S x.pull_request_id := by
  induction prs generalizing rows with
  | nil => exact h
  | cons pr prs ih =>
    rw [List.foldl_cons]
    apply ih _ _ (fun q hq => hprs q (List.mem_cons_of_mem _ hq))
    intro x hx
    unfold replaceReviewers at hx
    rcases List.mem_append.mp hx with h1 | h1
    · exact h x (List.mem_of_mem_filter h1)
    · obtain ⟨u, _, rfl⟩ := List.mem_map.mp h1
      exact hprs pr (List.mem_cons_self _ _)

theorem schema_bulk {db : DB} (hS : Schema db) (nullRow : Bool) (pick : String → Nat)
    (teamName : String) (userIDs : List String) :
    Schema (BulkDeactivateUsers nullRow db pick teamName userIDs).2 := by
  rcases bulk_cases nullRow db pick teamName userIDs with ⟨e, h⟩ | h
  · rw [h]
    exact hS
  · rw [h]
    refine ⟨?_, hS.prs_key, ?_, ?_⟩
    · show ((deactivate db.users teamName userIDs).map (fun x => x.user_id)).Nodup
      rw [deactivate_user_ids]
      exact hS.users_key
    · apply nodup_foldl_replace _ _ _ hS.reviewers_key
      intro pr hpr
      obtain ⟨p, _, rfl⟩ := List.mem_map.mp hpr
      exact nodup_finalReviewers (nodup_reviewersIn hS.reviewers_key _)
    · apply foldl_replace_ids _ _ _
        (fun id => ∃ p ∈ db.pull_requests, p.pull_request_id = id) hS.reviewers_pr
      intro pr hpr
      obtain ⟨p, hp, rfl⟩ := List.mem_map.mp hpr
      exact ⟨p, List.mem_of_mem_filter hp, rfl⟩

/-- Every call keeps the schema. -/
theorem schema_run {db : DB} (hS : Schema db) (op : Op) : Schema (op.run db) := by
  cases op with
  | upsertTeam t => exact schema_upsertTeam hS t
  | setUserActive userID isActive => exact schema_setUserActive hS userID isActive
  | createPR rnd now pr => exact schema_createPR hS rnd now pr
  | mergePR now prID => exact schema_mergePR hS now prID
  | reassignReviewer rnd r prID oldUserID => exact schema_reassign hS rnd r prID oldUserID
  | bulkDeactivateUsers nullRow pick teamName userIDs =>
    exact schema_bulk hS nullRow pick teamName userIDs

/-- Every reachable database satisfies the schema. -/
theorem schema_of_reachable {db : DB} (h : Reachable db) : Schema db := by
  induction h with
  | empty => exact ⟨List.nodup_nil, List.nodup_nil, List.nodup_nil, fun _ hx => by cases hx⟩
  | step _ op ih => exact schema_run ih op

/-! ## The author is never a reviewer -/

/-- Every call keeps the author of every pull request out of its reviewers. -/
theorem author_not_reviewer_run {db : DB} (hS : Schema db)
    (hA : ∀ p ∈ db.pull_requests, p.author_id ∉ reviewersOf db p.pull_request_id) (op : Op) :
    ∀ p ∈ (op.run db).pull_requests,
      p.author_id ∉ reviewersOf (op.run db) p.pull_request_id := by
  cases op with
  | upsertTeam t => exact hA
  | setUserActive userID isActive =>
    have hf := setUserActive_frame db userID isActive
    show ∀ p ∈ (SetUserActive db userID isActive).2.pull_requests,
      p.author_id ∉ reviewersIn (SetUserActive db userID isActive).2.pr_reviewers _
    rw [hf.1, hf.2]
    exact hA
  | createPR rnd now pr =>
    show ∀ p ∈ (CreatePR db rnd now pr).2.pull_requests,
      p.author_id ∉ reviewersOf (CreatePR db rnd now pr).2 p.pull_request_id
    rcases createPR_cases db rnd now pr with h | ⟨author, hnew, _, h⟩
    · rw [h]
      exact hA
    · rw [h]
      intro p hp
      rcases List.mem_append.mp hp with h1 | h1
      · rw [reviewersOf_insertPR_other db now pr _ (hnew p h1).symm]
        exact hA p h1
      · rw [List.mem_singleton] at h1
        subst h1
        rw [reviewersOf_insertPR, reviewersOf_eq_nil_of_new hS hnew, List.nil_append]
        exact fun hmem => (mem_pickReviewers hmem).1 rfl
  | mergePR now prID =>
    show ∀ p ∈ (MergePR db now prID).2.pull_requests,
      p.author_id ∉ reviewersOf (MergePR db now prID).2 p.pull_request_id
    rcases mergePR_cases db now prID with h | ⟨p0, _, _, h⟩
    · rw [h]
      exact hA
    · rw [h]
      intro p hp
      obtain ⟨q, hq, rfl⟩ := List.mem_map.mp hp
      by_cases hc : q.pull_request_id = prID
      · simp only [hc, if_true]
        exact hc ▸ hA q hq
      · simp only [hc, if_false]
        exact hA q hq
  | reassignReviewer rnd r prID oldUserID =>
    show ∀ p ∈ (ReassignReviewer db rnd r prID oldUserID).2.pull_requests,
      p.author_id ∉ reviewersOf (ReassignReviewer db rnd r prID oldUserID).2 p.pull_request_id
    rcases reassign_cases db rnd r prID oldUserID with h | ⟨p0, old, new, hp0, _, ha, _, hn, h⟩
    · rw [h]
      exact hA
    · rw [h]
      intro p hp
      by_cases hc : prID = p.pull_request_id
      · have hpp : p0 = p :=
          pr_unique hS.prs_key (findPR_some hp0).1 hp ((findPR_some hp0).2.trans hc)
        subst hpp
        rw [← hc, reviewersOf_swap]
        intro hmem
        rcases List.mem_append.mp hmem with h1 | h1
        · exact hA p0 hp (hc ▸ List.mem_of_mem_filter h1)
        · rw [List.mem_singleton] at h1
          exact (not_mem_reviewers_of_pool ((mem_reassignCandidates rnd ha new).mp hn)).1 h1.symm
      · rw [reviewersOf_swap_other db oldUserID new hc]
        exact hA p hp
  | bulkDeactivateUsers nullRow pick teamName userIDs =>
    show ∀ p ∈ (BulkDeactivateUsers nullRow db pick teamName userIDs).2.pull_requests,
      p.author_id ∉
        reviewersOf (BulkDeactivateUsers nullRow db pick teamName userIDs).2 p.pull_request_id
    rw [(bulk_pull_requests nullRow db pick teamName userIDs).1]
    intro p hp
    by_cases ho : p.status = "OPEN"
    · rcases bulk_cases nullRow db pick teamName userIDs with ⟨e, h⟩ | h
      · rw [h]
        exact hA p hp
      · have hok : (BulkDeactivateUsers nullRow db pick teamName userIDs).1 = .ok () := by
          rw [h]
        rw [bulk_reviewers_open hS.prs_key hok hp ho]
        intro hmem
        rcases mem_finalReviewers hmem with ⟨h1, _⟩ | ⟨_, h1, _⟩
        · exact hA p hp h1
        · exact h1 rfl
    · rw [bulk_reviewers_other nullRow db pick teamName userIDs]
      · exact hA p hp
      · intro q hq he hqo
        exact ho (pr_unique hS.prs_key hq hp he ▸ hqo)

/-- C2: in every database reachable from the empty one by calls of `UpsertTeam`,
`SetUserActive`, `CreatePR`, `MergePR`, `ReassignReviewer` and `BulkDeactivateUsers`, the
author of a stored pull request is not one of its reviewers. -/
theorem author_never_reviewer (db : DB) (h : Reachable db) :
    ∀ p ∈ db.pull_requests, p.author_id ∉ reviewersOf db p.pull_request_id := by
  induction h with
  | empty =>
    intro p hp
    cases hp
  | step hr op ih => exact author_not_reviewer_run (schema_of_reachable hr) ih op

theorem author_never_reviewer_witness :
    Reachable dbTS ∧
    ∀ p ∈ dbTS.pull_requests, p.author_id ∉ reviewersOf dbTS p.pull_request_id :=
  have hr : Reachable dbTS :=
    Reachable.step (Reachable.step (Reachable.step (Reachable.step Reachable.empty
      (Op.upsertTeam teamT)) (Op.createPR (fun _ => 0) 1 reqP1)) (Op.upsertTeam teamS))
      (Op.createPR (fun _ => 0) 2 reqQ1)
  ⟨hr, author_never_reviewer dbTS hr⟩

/-! ## Errors of creation -/

/-- C12: `CreatePR` with an id that is already stored fails with `ErrPRExists`, whether or
not the author is a user; with an id that is not stored and an author id that names no
user it fails with `ErrUserNotFound`. In both cases the database is the one before the
call: no pull request row and no reviewer assignment is added. -/
theorem createPR_errors (db : DB) (rnd : UserRow → Nat) (now : Nat) (pr : PullRequest) :
    ((∃ p ∈ db.pull_requests, p.pull_request_id = pr.PullRequestID) →
      CreatePR db rnd now pr = (.error .ErrPRExists, db)) ∧
    ((∀ p ∈ db.pull_requests, p.pull_request_id ≠ pr.PullRequestID) →
      (∀ u ∈ db.users, u.user_id ≠ pr.AuthorID) →
      CreatePR db rnd now pr = (.error .ErrUserNotFound, db)) := by
  constructor
  · rintro ⟨p, hp, he⟩
    have hany : db.pull_requests.any
        (fun p => decide (p.pull_request_id = pr.PullRequestID)) = true :=
      List.any_eq_true.mpr ⟨p, hp, by simpa using he⟩
    simp only [CreatePR, hany, if_true]
  · intro hnew hno
    have hany : db.pull_requests.any
        (fun p => decide (p.pull_request_id = pr.PullRequestID)) = false := by
      rw [List.any_eq_false]
      intro x hx
      simpa using hnew x hx
    have hf : findUser db pr.AuthorID = none := by
      unfold findUser
      apply List.find?_eq_none.mpr
      intro x hx
      simpa using hno x hx
    simp only [CreatePR, hany, hf]
    rfl

theorem createPR_errors_witness :
    (∃ p ∈ dbP1.pull_requests, p.pull_request_id = reqP1.PullRequestID) ∧
    CreatePR dbP1 (fun _ => 0) 7 reqP1 = (.error .ErrPRExists, dbP1) ∧
    (∀ p ∈ dbP1.pull_requests, p.pull_request_id ≠ reqP2.PullRequestID) ∧
    (∀ u ∈ dbP1.users, u.user_id ≠ reqP2.AuthorID) ∧
    CreatePR dbP1 (fun _ => 0) 7 reqP2 = (.error .ErrUserNotFound, dbP1) :=
  ⟨by decide,
    (createPR_errors dbP1 (fun _ => 0) 7 reqP1).1 (by decide),
    by decide, by decide,
    (createPR_errors dbP1 (fun _ => 0) 7 reqP2).2 (by decide) (by decide)⟩

/-! ## Users a bulk deactivation turns inactive -/

/-- The row a lookup finds after the `UPDATE` of `BulkDeactivateUsers`. -/
theorem find?_deactivate (users : List UserRow) (teamName : String) (userIDs : List String)
    (userID : String) :
    (deactivate users teamName userIDs).find? (fun u => decide (u.user_id = userID)) =
      (users.find? (fun u => decide (u.user_id = userID))).map (fun u =>
        if u.team_name = teamName ∧ u.user_id ∈ userIDs then { u with is_active := false }
        else u) := by
  unfold deactivate
  have hcomp : ((fun u : UserRow => decide (u.user_id = userID)) ∘ (fun u : UserRow =>
      if u.team_name = teamName ∧ u.user_id ∈ userIDs then { u with is_active := false }
      else u)) = fun u => decide (u.user_id = userID) := by
    funext x
    by_cases hc : x.team_name = teamName ∧ x.user_id ∈ userIDs
    · simp only [Function.comp, if_pos hc]
    · simp only [Function.comp, if_neg hc]
  rw [List.find?_map, hcomp]

/-- After a successful call every reviewer of an OPEN pull request is an active member of
the team the call names, hence none of the users the call lists. -/
theorem bulk_reviewer_active {nullRow : Bool} {db : DB} (hS : Schema db) {pick : String → Nat}
    {teamName : String} {userIDs : List String}
    (hok : (BulkDeactivateUsers nullRow db pick teamName userIDs).1 = .ok ())
    {p : PullRequestRow} (hp : p ∈ db.pull_requests) (ho : p.status = "OPEN") {u : String}
    (hu : u ∈ reviewersOf (BulkDeactivateUsers nullRow db pick teamName userIDs).2
      p.pull_request_id) :
    u ∈ activeOfTeam (deactivate db.users teamName userIDs) teamName := by
  rw [bulk_reviewers_open hS.prs_key hok hp ho] at hu
  rcases mem_finalReviewers hu with ⟨_, h⟩ | ⟨h, _, _⟩ <;> exact h

/-- C11: after a successful `BulkDeactivateUsers teamName userIDs`, in a database that
satisfies the schema, a user the call deactivated (a member of `teamName` listed in
`userIDs`) is stored as inactive and is a reviewer of no OPEN pull request, while a user
listed in `userIDs` that is not a member of `teamName` keeps its row, the active flag
included. -/
theorem bulk_deactivated_not_reviewer (nullRow : Bool) (db : DB) (hS : Schema db)
    (pick : String → Nat) (teamName : String) (userIDs : List String)
    (hok : (BulkDeactivateUsers nullRow db pick teamName userIDs).1 = .ok ()) :
    (∀ u ∈ userIDs, ∀ row, findUser db u = some row → row.team_name = teamName →
      findUser (BulkDeactivateUsers nullRow db pick teamName userIDs).2 u =
        some { row with is_active := false } ∧
      ∀ p ∈ (BulkDeactivateUsers nullRow db pick teamName userIDs).2.pull_requests,
        p.status = "OPEN" →
        u ∉ reviewersOf (BulkDeactivateUsers nullRow db pick teamName userIDs).2
          p.pull_request_id) ∧
    (∀ u ∈ userIDs, ∀ row, findUser db u = some row → row.team_name ≠ teamName →
      findUser (BulkDeactivateUsers nullRow db pick teamName userIDs).2 u = some row) := by
  have hfind : ∀ u, findUser (BulkDeactivateUsers nullRow db pick teamName userIDs).2 u =
      (findUser db u).map (fun u =>
        if u.team_name = teamName ∧ u.user_id ∈ userIDs then { u with is_active := false }
        else u) := by
    intro u
    unfold findUser
    rw [bulk_users hok]
    exact find?_deactivate db.users teamName userIDs u
  constructor
  · intro u hu row hrow hteam
    constructor
    · rw [hfind u, hrow, Option.map_some']
      have hid := (findUser_some hrow).2
      rw [if_pos ⟨hteam, hid ▸ hu⟩]
    · intro p hp ho hmem
      rw [(bulk_pull_requests nullRow db pick teamName userIDs).1] at hp
      exact not_mem_ids_of_active (bulk_reviewer_active hS hok hp ho hmem) hu
  · intro u hu row hrow hteam
    rw [hfind u, hrow, Option.map_some']
    rw [if_neg (fun h => hteam h.1)]

theorem bulk_deactivated_not_reviewer_witness :
    Schema dbTS ∧
    (BulkDeactivateUsers true dbTS (fun _ => 0) "T" ["u2", "s2"]).1 = .ok () ∧
    findUser dbTS "u2" = some ⟨"u2", "bob", "T", true⟩ ∧
    findUser dbTS "s2" = some ⟨"s2", "emil", "S", true⟩ ∧
    findUser (BulkDeactivateUsers true dbTS (fun _ => 0) "T" ["u2", "s2"]).2 "u2" =
      some ⟨"u2", "bob", "T", false⟩ ∧
    (∀ p ∈ (BulkDeactivateUsers true dbTS (fun _ => 0) "T" ["u2", "s2"]).2.pull_requests,
      p.status = "OPEN" →
      "u2" ∉ reviewersOf (BulkDeactivateUsers true dbTS (fun _ => 0) "T" ["u2", "s2"]).2
        p.pull_request_id) ∧
    findUser (BulkDeactivateUsers true dbTS (fun _ => 0) "T" ["u2", "s2"]).2 "s2" =
      some ⟨"s2", "emil", "S", true⟩ :=
  have h := bulk_deactivated_not_reviewer true dbTS ⟨by decide, by decide, by decide, by decide⟩
    (fun _ => 0) "T" ["u2", "s2"] (by decide)
  ⟨⟨by decide, by decide, by decide, by decide⟩, by decide, by decide, by decide,
    (h.1 "u2" (by decide) ⟨"u2", "bob", "T", true⟩ (by decide) rfl).1,
    (h.1 "u2" (by decide) ⟨"u2", "bob", "T", true⟩ (by decide) rfl).2,
    h.2 "s2" (by decide) ⟨"s2", "emil", "S", true⟩ (by decide) (by decide)⟩

/-! ## Team membership under an upsert -/

theorem mem_membersIn {users : List UserRow} {team u : String} :
    u ∈ membersIn users team ↔ ∃ row ∈ users, row.team_name = team ∧ row.user_id = u := by
  unfold membersIn
  simp only [List.mem_map, List.mem_filter, decide_eq_true_eq]
  constructor
  · rintro ⟨row, ⟨h1, h2⟩, h3⟩
    exact ⟨row, h1, h2, h3⟩
  · rintro ⟨row, h1, h2, h3⟩
    exact ⟨row, ⟨h1, h2⟩, h3⟩

/-- The members of a team after one upserted row: the team of the row gains the user the
row names, every other team loses that user, and nothing else changes. -/
theorem mem_membersIn_upsertUser (users : List UserRow) (row : UserRow) (team u : String) :
    u ∈ membersIn (upsertUser users row) team ↔
      if team = row.team_name then u ∈ membersIn users team ∨ u = row.user_id
      else u ∈ membersIn users team ∧ u ≠ row.user_id := by
  simp only [mem_membersIn]
  unfold upsertUser
  by_cases hany : users.any (fun x => decide (x.user_id = row.user_id)) = true
  · rw [if_pos hany]
    obtain ⟨y, hy, hye⟩ := List.any_eq_true.mp hany
    have hye' : y.user_id = row.user_id := by simpa using hye
    by_cases ht : team = row.team_name
    · rw [if_pos ht]
      constructor
      · rintro ⟨x', hx', hxt, hxu⟩
        obtain ⟨x, hx, rfl⟩ := List.mem_map.mp hx'
        by_cases hxr : x.user_id = row.user_id
        · rw [if_pos hxr] at hxu
          exact Or.inr hxu.symm
        · rw [if_neg hxr] at hxt hxu
          exact Or.inl ⟨x, hx, hxt, hxu⟩
      · rintro (⟨x, hx, hxt, hxu⟩ | hu)
        · by_cases hxr : x.user_id = row.user_id
          · exact ⟨row, List.mem_map.mpr ⟨x, hx, by rw [if_pos hxr]⟩, ht.symm,
              hxr.symm.trans hxu⟩
          · exact ⟨x, List.mem_map.mpr ⟨x, hx, by rw [if_neg hxr]⟩, hxt, hxu⟩
        · exact ⟨row, List.mem_map.mpr ⟨y, hy, by rw [if_pos hye']⟩, ht.symm, hu.symm⟩
    · rw [if_neg ht]
      constructor
      · rintro ⟨x', hx', hxt, hxu⟩
        obtain ⟨x, hx, rfl⟩ := List.mem_map.mp hx'
        by_cases hxr : x.user_id = row.user_id
        · rw [if_pos hxr] at hxt
          exact absurd hxt.symm ht
        · rw [if_neg hxr] at hxt hxu
          exact ⟨⟨x, hx, hxt, hxu⟩, fun e => hxr (hxu.trans e)⟩
      · rintro ⟨⟨x, hx, hxt, hxu⟩, hne⟩
        have hxr : ¬ x.user_id = row.user_id := fun e => hne (hxu.symm.trans e)
        exact ⟨x, List.mem_map.mpr ⟨x, hx, by rw [if_neg hxr]⟩, hxt, hxu⟩
  · rw [if_neg hany]
    have hnone : ∀ x ∈ users, ¬ x.user_id = row.user_id := by
      intro x hx e
      exact hany (List.any_eq_true.mpr ⟨x, hx, by simpa using e⟩)
    by_cases ht : team = row.team_name
    · rw [if_pos ht]
      constructor
      · rintro ⟨x, hx, hxt, hxu⟩
        rcases List.mem_append.mp hx with h | h
        · exact Or.inl ⟨x, h, hxt, hxu⟩
        · rw [List.mem_singleton] at h
          subst h
          exact Or.inr hxu.symm
      · rintro (⟨x, hx, hxt, hxu⟩ | hu)
        · exact ⟨x, List.mem_append_left _ hx, hxt, hxu⟩
        · exact ⟨row, List.mem_append_right _ (List.mem_singleton_self _), ht.symm, hu.symm⟩
    · rw [if_neg ht]
      constructor
      · rintro ⟨x, hx, hxt, hxu⟩
        rcases List.mem_append.mp hx with h | h
        · exact ⟨⟨x, h, hxt, hxu⟩, fun e => hnone x h (hxu.trans e)⟩
        · rw [List.mem_singleton] at h
          subst h
          exact absurd hxt.symm ht
      · rintro ⟨⟨x, hx, hxt, hxu⟩, _⟩
        exact ⟨x, List.mem_append_left _ hx, hxt, hxu⟩

/-- The members of a team after the loop of `UpsertTeam` over the member list. -/
theorem mem_membersIn_foldl_upsert (teamName : String) (members : List TeamMember)
    (users : List UserRow) (team u : String) :
    u ∈ membersIn (members.foldl
      (fun us m => upsertUser us
        { user_id := m.UserID, username := m.Username, team_name := teamName,
          is_active := m.IsActive })
      users) team ↔
      if team = teamName then
        u ∈ membersIn users team ∨ u ∈ members.map (fun m => m.UserID)
      else u ∈ membersIn users team ∧ u ∉ members.map (fun m => m.UserID) := by
  induction members generalizing users with
  | nil =>
    by_cases ht : team = teamName
    · simp [ht]
    · simp [ht]
  | cons m ms ih =>
    rw [List.foldl_cons, ih, mem_membersIn_upsertUser]
    by_cases ht : team = teamName
    · simp only [ht, if_true, List.map_cons, List.mem_cons]
      constructor
      · rintro ((h | h) | h)
        · exact Or.inl h
        · exact Or.inr (Or.inl h)
        · exact Or.inr (Or.inr h)
      · rintro (h | h | h)
        · exact Or.inl (Or.inl h)
        · exact Or.inl (Or.inr h)
        · exact Or.inr h
    · simp only [ht, if_false, List.map_cons, List.mem_cons, not_or]
      constructor
      · rintro ⟨⟨h1, h2⟩, h3⟩
        exact ⟨h1, h2, h3⟩
      · rintro ⟨h1, h2, h3⟩
        exact ⟨⟨h1, h2⟩, h3⟩

/-- C13 as stated fails: in `dbT` the user `u1` is a member of team `T`; after the upsert
of team `S` with `u1` in its member list, `u1` is a member of `S` and no longer a member
of `T`. -/
theorem upsert_moves_listed_user :
    "u1" ∈ teamMembers dbT "T" ∧
    "u1" ∉ teamMembers (UpsertTeam dbT teamMove).2 "T" ∧
    "u1" ∈ teamMembers (UpsertTeam dbT teamMove).2 "S" := by
  decide

/-- C13, amended: an upsert of team `t.TeamName` with member list `t.Members` changes the
membership of the teams in exactly this way. The members of the upserted team after the
call are its members before the call together with every user the list names, so that
team only grows; the members of any other team after the call are its members before the
call without the users the list names, so another team loses exactly the listed users,
who are moved to the upserted team, and gains none. -/
theorem upsertTeam_members (db : DB) (t : Team) :
    (∀ u, u ∈ teamMembers (UpsertTeam db t).2 t.TeamName ↔
      u ∈ teamMembers db t.TeamName ∨ u ∈ t.Members.map (fun m => m.UserID)) ∧
    (∀ team u, team ≠ t.TeamName →
      (u ∈ teamMembers (UpsertTeam db t).2 team ↔
        u ∈ teamMembers db team ∧ u ∉ t.Members.map (fun m => m.UserID))) := by
  constructor
  · intro u
    have h := mem_membersIn_foldl_upsert t.TeamName t.Members db.users t.TeamName u
    rw [if_pos rfl] at h
    exact h
  · intro team u hne
    have h := mem_membersIn_foldl_upsert t.TeamName t.Members db.users team u
    rw [if_neg hne] at h
    exact h

theorem upsertTeam_members_witness :
    ("u1" ∈ teamMembers (UpsertTeam dbT teamMove).2 "S" ↔
      "u1" ∈ teamMembers dbT "S" ∨ "u1" ∈ teamMove.Members.map (fun m => m.UserID)) ∧
    "u1" ∈ teamMembers (UpsertTeam dbT teamMove).2 "S" ∧
    ("u1" ∈ teamMembers (UpsertTeam dbT teamMove).2 "T" ↔
      "u1" ∈ teamMembers dbT "T" ∧ "u1" ∉ teamMove.Members.map (fun m => m.UserID)) ∧
    ("u2" ∈ teamMembers (UpsertTeam dbT teamMove).2 "T" ↔
      "u2" ∈ teamMembers dbT "T" ∧ "u2" ∉ teamMove.Members.map (fun m => m.UserID)) ∧
    "u2" ∈ teamMembers (UpsertTeam dbT teamMove).2 "T" :=
  ⟨(upsertTeam_members dbT teamMove).1 "u1",
    ((upsertTeam_members dbT teamMove).1 "u1").mpr (Or.inr (by decide)),
    (upsertTeam_members dbT teamMove).2 "T" "u1" (by decide),
    (upsertTeam_members dbT teamMove).2 "T" "u2" (by decide),
    ((upsertTeam_members dbT teamMove).2 "T" "u2" (by decide)).mpr ⟨by decide, by decide⟩⟩

/-! ## At most two reviewers, all distinct -/

theorem length_pickReviewers_le (db : DB) (rnd : UserRow → Nat) (team author : String) :
    (pickReviewers db rnd team author).length ≤ 2 := by
  rw [length_pickReviewers]
  exact Nat.min_le_left _ _

/-- The loop body of the cascade keeps some of the reviewers or sets a single one. -/
theorem length_finalReviewers_le (active : List String) (r : Nat) (pr : PR) :
    (finalReviewers active r pr).length ≤ max pr.Reviewers.length 1 := by
  unfold finalReviewers
  by_cases hlen0 : (pr.Reviewers.filter (fun x => decide (x ∈ active))).length = 0
  · have hnil := List.length_eq_zero.mp hlen0
    simp only [hlen0, if_true, hnil, List.nil_append]
    by_cases hlen : 0 < (active.filter
        (fun u => decide (u ≠ pr.Author) && !decide (u ∈ pr.Reviewers))).length
    · rw [dif_pos hlen]
      exact le_max_right _ _
    · rw [dif_neg hlen]
      exact Nat.zero_le _
  · simp only [hlen0, if_false]
    exact le_trans (List.length_filter_le _ _) (le_max_left _ _)

/-- A swap does not add to the number of reviewers of the pull request. -/
theorem length_swap_le {db : DB} {prID oldUserID : String} (new : String)
    (h : oldUserID ∈ reviewersOf db prID) :
    (reviewersOf (swapReviewer db prID oldUserID new) prID).length ≤
      (reviewersOf db prID).length := by
  rw [reviewersOf_swap, List.length_append, List.length_singleton]
  have : ((reviewersOf db prID).filter (fun u => decide (u ≠ oldUserID))).length <
      (reviewersOf db prID).length :=
    List.length_filter_lt_length_iff_exists.mpr ⟨oldUserID, h, by simp⟩
  omega

/-- Every call keeps the bound of two reviewers per pull request. -/
theorem two_reviewers_run {db : DB} (hS : Schema db)
    (hB : ∀ prID, (reviewersOf db prID).length ≤ 2) (op : Op) :
    ∀ prID, (reviewersOf (op.run db) prID).length ≤ 2 := by
  intro prID
  cases op with
  | upsertTeam t => exact hB prID
  | setUserActive userID isActive =>
    show (reviewersIn (SetUserActive db userID isActive).2.pr_reviewers prID).length ≤ 2
    rw [(setUserActive_frame db userID isActive).2]
    exact hB prID
  | createPR rnd now pr =>
    show (reviewersOf (CreatePR db rnd now pr).2 prID).length ≤ 2
    rcases createPR_cases db rnd now pr with h | ⟨author, hnew, _, h⟩
    · rw [h]
      exact hB prID
    · rw [h]
      by_cases hc : pr.PullRequestID = prID
      · rw [← hc, reviewersOf_insertPR, reviewersOf_eq_nil_of_new hS hnew, List.nil_append]
        exact length_pickReviewers_le db rnd _ _
      · rw [reviewersOf_insertPR_other db now pr _ hc]
        exact hB prID
  | mergePR now q =>
    show (reviewersOf (MergePR db now q).2 prID).length ≤ 2
    rcases mergePR_cases db now q with h | ⟨p, _, _, h⟩
    · rw [h]
      exact hB prID
    · rw [h]
      exact hB prID
  | reassignReviewer rnd r q oldUserID =>
    show (reviewersOf (ReassignReviewer db rnd r q oldUserID).2 prID).length ≤ 2
    rcases reassign_cases db rnd r q oldUserID with h | ⟨p, old, new, _, _, ha, _, _, h⟩
    · rw [h]
      exact hB prID
    · rw [h]
      by_cases hc : q = prID
      · rw [← hc]
        exact le_trans (length_swap_le new ha) (hB q)
      · rw [reviewersOf_swap_other db oldUserID new hc]
        exact hB prID
  | bulkDeactivateUsers nullRow pick teamName userIDs =>
    show (reviewersOf (BulkDeactivateUsers nullRow db pick teamName userIDs).2 prID).length ≤ 2
    by_cases hex : ∃ p ∈ db.pull_requests, p.pull_request_id = prID ∧ p.status = "OPEN"
    · obtain ⟨p, hp, hid, ho⟩ := hex
      rcases bulk_cases nullRow db pick teamName userIDs with ⟨e, h⟩ | h
      · rw [h]
        exact hB prID
      · have hok : (BulkDeactivateUsers nullRow db pick teamName userIDs).1 = .ok () := by
          rw [h]
        rw [← hid, bulk_reviewers_open hS.prs_key hok hp ho]
        apply le_trans (length_finalReviewers_le _ _ _)
        exact max_le (hB p.pull_request_id) (by decide)
    · rw [bulk_reviewers_other nullRow db pick teamName userIDs]
      · exact hB prID
      · intro p hp hid ho
        exact hex ⟨p, hp, hid, ho⟩

/-- C14: in every database reachable from the empty one by calls of `UpsertTeam`,
`SetUserActive`, `CreatePR`, `MergePR`, `ReassignReviewer` and `BulkDeactivateUsers`, every
pull request has at most two reviewers and no user is assigned to it twice. -/
theorem at_most_two_distinct_reviewers (db : DB) (h : Reachable db) :
    ∀ prID, (reviewersOf db prID).length ≤ 2 ∧ (reviewersOf db prID).Nodup := by
  intro prID
  refine ⟨?_, nodup_reviewersIn (schema_of_reachable h).reviewers_key prID⟩
  revert prID
  induction h with
  | empty =>
    intro prID
    exact Nat.zero_le _
  | step hr op ih => exact two_reviewers_run (schema_of_reachable hr) ih op

theorem at_most_two_distinct_reviewers_witness :
    Reachable dbA1 ∧
    reviewersOf dbA1 "p1" = ["u2", "u3"] ∧
    ∀ prID, (reviewersOf dbA1 prID).length ≤ 2 ∧ (reviewersOf dbA1 prID).Nodup :=
  have hr : Reachable dbA1 :=
    Reachable.step (Reachable.step Reachable.empty (Op.upsertTeam teamA))
      (Op.createPR (fun _ => 0) 1 reqP1)
  ⟨hr, by decide, at_most_two_distinct_reviewers dbA1 hr⟩

end Storage
